import Mathlib

/-!
# Verification of bunny-origin-protection (bop.py / bop-nft.py)

Shallow embedding of the two Python programs `src/bop.py` (iptables
variant) and `src/bop-nft.py` (nftables variant), together with proofs
about the reconciliation diff, the ordering of firewall mutations, the
fetch/parse pipeline, and the persistence behaviour of both `main`
functions.  Python stdlib collaborators (`json.loads`, `xml.etree`,
`re.finditer`, `ipaddress`) are embedded as explicit data fed to the
translated repository logic, or as small Lean functions mirroring their
documented behaviour on the inputs the programs use.
-/

namespace BOP

/-! ## Basic utilities mirroring Python primitives

All string work is done on the underlying character lists with structural
recursion, so that every definition evaluates inside the kernel. -/

def listStartsWith : List Char → List Char → Bool
  | _, [] => true
  | [], _ :: _ => false
  | c :: cs, p :: ps => c = p && listStartsWith cs ps

def listContains : List Char → List Char → Bool
  | [], pat => pat.isEmpty
  | c :: cs, pat => listStartsWith (c :: cs) pat || listContains cs pat

/-- `pat in s` on Python strings: substring containment (true for an
empty `pat`, as in Python). -/
def strContains (s pat : String) : Bool :=
  listContains s.toList pat.toList

/-- Fuel-driven worker for `pySplit`; the fuel is the input length, enough
because every step consumes at least one character. -/
def splitAux (pat : List Char) : Nat → List Char → List Char → List (List Char)
  | _, [], acc => [acc.reverse]
  | 0, rest, acc => [acc.reverse ++ rest]
  | fuel + 1, c :: cs, acc =>
      if listStartsWith (c :: cs) pat then
        acc.reverse :: splitAux pat fuel (List.drop (pat.length - 1) cs) []
      else splitAux pat fuel cs (c :: acc)

/-- Python `s.split(sep)` for a nonempty separator string. -/
def pySplit (s sep : String) : List String :=
  (splitAux sep.toList s.toList.length s.toList []).map String.mk

/-- Python `s.strip()`: strip leading and trailing whitespace. -/
def pyStrip (s : String) : String :=
  String.mk
    (((s.toList.dropWhile Char.isWhitespace).reverse.dropWhile
        Char.isWhitespace).reverse)

/-- Python `s.startswith(pre)`. -/
def pyStartsWith (s pre : String) : Bool :=
  listStartsWith s.toList pre.toList

/-- The numeric value of a digit string (`int(x)` on the all-digit tokens
the programs feed it). -/
def digitsVal (s : String) : Nat :=
  s.toList.foldl (fun n c => 10 * n + (c.toNat - '0'.toNat)) 0

/-- Order-preserving deduplication keeping the first occurrence of each
element: embeds Python's `list(dict.fromkeys(xs))` (src/bop.py line 240);
also used to model iteration over a Python `set` built from a list, where
only membership is semantically relevant. -/
def dedupKeys : List String → List String
  | [] => []
  | x :: xs => x :: (dedupKeys xs).filter (fun y => decide (y ≠ x))

/-! ## Embedding of `ipaddress.ip_address` (Python stdlib)

Strict parsing as performed by `ipaddress.ip_address(s)`: IPv4 dotted quad
(four decimal octets ≤ 255, no leading zeros) or IPv6 (hex groups with at
most one `::` compression).  IPv4-embedded IPv6 mixed notation
(`::ffff:1.2.3.4`) is not modelled; no input considered below uses it. -/

/-- One dotted-quad octet as accepted by `ipaddress.IPv4Address`:
1–3 decimal digits, value ≤ 255, no leading zero. -/
def parseOctet (s : String) : Option Nat :=
  if s.toList.isEmpty || decide (3 < s.toList.length) ||
      !s.toList.all Char.isDigit ||
      (decide (1 < s.toList.length) && decide (s.toList.head? = some '0')) then
    none
  else if digitsVal s ≤ 255 then some (digitsVal s)
  else none

def parseV4 (s : String) : Option (Nat × Nat × Nat × Nat) :=
  match (pySplit s ".").map parseOctet with
  | [some a, some b, some c, some d] => some (a, b, c, d)
  | _ => none

def isHexDigitCh (c : Char) : Bool :=
  c.isDigit || ('a' ≤ c && c ≤ 'f') || ('A' ≤ c && c ≤ 'F')

def hexVal (c : Char) : Nat :=
  if c.isDigit then c.toNat - '0'.toNat
  else if 'a' ≤ c && c ≤ 'f' then c.toNat - 'a'.toNat + 10
  else if 'A' ≤ c && c ≤ 'F' then c.toNat - 'A'.toNat + 10
  else 0

/-- One IPv6 group: 1–4 hex digits. -/
def parseHexGroup (s : String) : Option Nat :=
  if s.toList.isEmpty || decide (4 < s.toList.length) ||
      !s.toList.all isHexDigitCh then none
  else some (s.toList.foldl (fun n c => 16 * n + hexVal c) 0)

/-- IPv6 textual parse to its 8 groups (mixed v4-in-v6 notation excluded). -/
def parseV6 (s : String) : Option (List Nat) :=
  if strContains s "." then none
  else
    match pySplit s "::" with
    | [whole] =>
        let parts := pySplit whole ":"
        if parts.length = 8 then parts.mapM parseHexGroup else none
    | [l, r] =>
        let lg := if l = "" then [] else pySplit l ":"
        let rg := if r = "" then [] else pySplit r ":"
        if lg.length + rg.length ≤ 7 then
          match lg.mapM parseHexGroup, rg.mapM parseHexGroup with
          | some lv, some rv =>
              some (lv ++ List.replicate (8 - lv.length - rv.length) 0 ++ rv)
          | _, _ => none
        else none
    | _ => none

inductive IpAddr
  | v4 (a b c d : Nat)
  | v6 (groups : List Nat)
deriving DecidableEq, Repr

/-- `ipaddress.ip_address(s)`: IPv4 attempted first, then IPv6. -/
def ip_address (s : String) : Option IpAddr :=
  match parseV4 s with
  | some (a, b, c, d) => some (.v4 a b c d)
  | none =>
      match parseV6 s with
      | some gs => some (.v6 gs)
      | none => none

def ipVersion : IpAddr → Nat
  | .v4 _ _ _ _ => 4
  | .v6 _ => 6

def renderV4 (a b c d : Nat) : String :=
  toString a ++ "." ++ toString b ++ "." ++ toString c ++ "." ++ toString d

/-- Lowercase hex rendering of one group, no leading zeros. -/
def hexStr (n : Nat) : String := String.mk (Nat.toDigits 16 n)

/-- First longest run of consecutive zero groups: `(start, length)`. -/
def bestRun (gs : List Nat) : Nat × Nat :=
  let step := fun (st : Nat × Nat × Nat × Nat × Nat) (g : Nat) =>
    let (i, cs, cl, bs, bl) := st
    if g = 0 then
      let cs' := if cl = 0 then i else cs
      let cl' := cl + 1
      if bl < cl' then (i + 1, cs', cl', cs', cl') else (i + 1, cs', cl', bs, bl)
    else (i + 1, 0, 0, bs, bl)
  let r := gs.foldl step (0, 0, 0, 0, 0)
  (r.2.2.2.1, r.2.2.2.2)

/-- `str(IPv6Address)`: lowercase hex groups, the first longest run of two
or more zero groups compressed to `::`. -/
def renderV6 (gs : List Nat) : String :=
  let (bs, bl) := bestRun gs
  if bl < 2 then String.intercalate ":" (gs.map hexStr)
  else
    String.intercalate ":" ((gs.take bs).map hexStr) ++ "::" ++
      String.intercalate ":" ((gs.drop (bs + bl)).map hexStr)

/-- `str(ip)`: the canonical textual form of a parsed address. -/
def ipStr : IpAddr → String
  | .v4 a b c d => renderV4 a b c d
  | .v6 gs => renderV6 gs

/-! ## Embedding of parsed JSON values (`json.loads`) -/

inductive JVal
  | jnull
  | jbool (b : Bool)
  | jnum (n : Int)
  | jstr (s : String)
  | jarr (xs : List JVal)
  | jobj (fields : List (String × JVal))
deriving Repr

/-- Python `str(x)` on a decoded JSON value.  Container renderings are
abbreviated: they never parse as IP addresses, which is the only property
the pipelines depend on. -/
def pyStr : JVal → String
  | .jstr s => s
  | .jnum n => toString n
  | .jbool true => "True"
  | .jbool false => "False"
  | .jnull => "None"
  | .jarr _ => "[list]"
  | .jobj _ => "dict"

/-- Python truthiness of a decoded JSON value. -/
def jFalsy : JVal → Bool
  | .jnull => true
  | .jbool b => !b
  | .jnum n => n == 0
  | .jstr s => s == ""
  | .jarr xs => xs.isEmpty
  | .jobj fs => fs.isEmpty

/-- `obj.get(key)` on a decoded JSON object. -/
def jlookup (fs : List (String × JVal)) (key : String) : Option JVal :=
  match fs.find? (fun kv => kv.1 == key) with
  | some kv => some kv.2
  | none => none

/-! ## The fetch payload

One HTTP response as seen by `fetch_bunny_ips` after transport: the
lowercased `Content-Type`, the decoded/BOM-stripped/trimmed body, and the
results of the three stdlib parses of that body which the repository code
consumes: `json.loads(text)` (`none` when it raises), the element texts
collected from `ET.fromstring(text)` via `root.iter()` (`none` when it
raises), and the tokens produced by the fallback `re.finditer` scan of the
body, in order. -/
structure Payload where
  ctype : String
  text : String
  json : Option JVal
  xmlTexts : Option (List String)
  regexTokens : List String

/-- Python `text[:1] in pat`: substring containment of the first character
(true for the empty body, since `"" in pat` holds in Python). -/
def pyFirstCharIn (text pat : String) : Bool :=
  listContains pat.toList (text.toList.take 1)

/-- Set insertion (`ips.add(s)`), keeping a duplicate-free list. -/
def insertNew (l : List String) (x : String) : List String :=
  if x ∈ l then l else l ++ [x]

/-! ## `fetch_bunny_ips` of src/bop.py (lines 93–166) -/

/-- `try_add` (src/bop.py lines 119–128): skip falsy elements, stringify
and strip, keep tokens that `ipaddress.ip_address` accepts (the stripped
original token is added, not the canonical form). -/
def try_add (ips : List String) (seq : List JVal) : List String :=
  seq.foldl
    (fun acc x =>
      if jFalsy x then acc
      else
        match ip_address (pyStrip (pyStr x)) with
        | some _ => insertNew acc (pyStrip (pyStr x))
        | none => acc)
    ips

/-- The regex fallback loop (src/bop.py lines 150–157). -/
def regexAdd (ips : List String) (toks : List String) : List String :=
  toks.foldl
    (fun acc s =>
      match ip_address s with
      | some _ => insertNew acc s
      | none => acc)
    ips

/-- JSON branch of src/bop.py (lines 130–139): on a payload classified as
JSON (`"json" in ctype or text[:1] in "[{]"` — note the pattern includes a
closing bracket), extract from a top-level array, or from the `items`
field of a top-level object — and from no other field. -/
def bopJsonStage (p : Payload) (ips : List String) : List String :=
  if strContains p.ctype "json" || pyFirstCharIn p.text "[\x7b]" then
    match p.json with
    | some (JVal.jarr xs) => try_add ips xs
    | some (JVal.jobj fs) =>
        match jlookup fs "items" with
        | some (JVal.jarr xs) => try_add ips xs
        | _ => ips
    | _ => ips
  else ips

/-- XML branch of src/bop.py (lines 141–147), entered only when the
candidate set is still empty. -/
def bopXmlStage (p : Payload) (ips : List String) : List String :=
  if ips.isEmpty && (strContains p.ctype "xml" || pyStartsWith p.text "<") then
    match p.xmlTexts with
    | some ts => try_add ips (ts.map JVal.jstr)
    | none => ips
  else ips

/-- Regex fallback of src/bop.py (lines 149–157), entered only when the
candidate set is still empty and the body is nonempty. -/
def bopRegexStage (p : Payload) (ips : List String) : List String :=
  if ips.isEmpty && !(p.text == "") then regexAdd ips p.regexTokens
  else ips

/-- The per-payload parsing pipeline of src/bop.py `fetch_bunny_ips`
(lines 115–157): the candidate set `ips` after all three branches. -/
def bopPayloadIps (p : Payload) : List String :=
  bopRegexStage p (bopXmlStage p (bopJsonStage p []))

/-- The v4 sort key `tuple(int(x) for x in s.split("."))`. -/
def octKey (s : String) : List Nat :=
  (pySplit s ".").map digitsVal

/-- Lexicographic order on key tuples, as Python compares them. -/
def natListLe : List Nat → List Nat → Bool
  | [], _ => true
  | _ :: _, [] => false
  | a :: as, b :: bs =>
    if a < b then true else if b < a then false else natListLe as bs

def octLe (s t : String) : Bool := natListLe (octKey s) (octKey t)

/-- Python `sorted(xs, key=...)` for the total preorder `le`.  Python's
sort is stable; every use below sorts duplicate-free lists under an
antisymmetric order, where stability is irrelevant and the sorted
permutation is unique, so an insertion sort is extensionally exact. -/
def pySorted (le : String → String → Bool) (l : List String) : List String :=
  List.insertionSort (fun a b => le a b = true) l

/-- Lines 159–161 of src/bop.py: on a nonempty candidate set, keep the
IPv4 entries (tokens containing a dot) and sort numerically per octet;
an empty candidate set means this URL yields nothing (`none`). -/
def bopPayloadResult (p : Payload) : Option (List String) :=
  let ips := bopPayloadIps p
  if ips.isEmpty then none
  else some (pySorted octLe (ips.filter (fun ip => strContains ip ".")))

/-- `fetch_bunny_ips` of src/bop.py: iterate the candidate URLs; `none`
models a transport error for that URL (caught, next URL tried); the first
payload with a nonempty candidate set yields the sorted IPv4 result;
exhaustion raises `RuntimeError` (modelled as `Except.error`). -/
def fetch_bunny_ips : List (Option Payload) → Except Unit (List String)
  | [] => .error ()
  | none :: rest => fetch_bunny_ips rest
  | some p :: rest =>
      match bopPayloadResult p with
      | some v4 => .ok v4
      | none => fetch_bunny_ips rest

/-! ## `fetch_bunny_ips` of src/bop-nft.py (lines 53–123) -/

/-- `add_candidate` (src/bop-nft.py lines 75–86): strip, skip empty,
validate, and add the canonical `str(ip)` to the set of its family. -/
def add_candidate (st : List String × List String) (s0 : String) :
    List String × List String :=
  if pyStrip s0 == "" then st
  else
    match ip_address (pyStrip s0) with
    | some ip =>
        if ipVersion ip = 4 then (insertNew st.1 (ipStr ip), st.2)
        else (st.1, insertNew st.2 (ipStr ip))
    | none => st

/-- One step of the loop `for key in ("items", "data", "ips")` of
src/bop-nft.py (lines 96–99). -/
def fieldStep (fs : List (String × JVal)) (acc : List String × List String)
    (key : String) : List String × List String :=
  match jlookup fs key with
  | some (JVal.jarr xs) => xs.foldl (fun a x => add_candidate a (pyStr x)) acc
  | _ => acc

/-- JSON branch of src/bop-nft.py (lines 88–101): top-level array, or the
`items`, `data` and `ips` fields of a top-level object — all three. -/
def nftJsonStage (p : Payload) (st : List String × List String) :
    List String × List String :=
  if strContains p.ctype "json" || pyFirstCharIn p.text "[\x7b" then
    match p.json with
    | some (JVal.jarr xs) => xs.foldl (fun a x => add_candidate a (pyStr x)) st
    | some (JVal.jobj fs) => ["items", "data", "ips"].foldl (fieldStep fs) st
    | _ => st
  else st

/-- XML branch of src/bop-nft.py (lines 103–111), entered only when both
candidate sets are still empty. -/
def nftXmlStage (p : Payload) (st : List String × List String) :
    List String × List String :=
  if st.1.isEmpty && st.2.isEmpty &&
      (strContains p.ctype "xml" || pyStartsWith p.text "<") then
    match p.xmlTexts with
    | some ts => ts.foldl add_candidate st
    | none => st
  else st

/-- Regex fallback of src/bop-nft.py (lines 113–116). -/
def nftRegexStage (p : Payload) (st : List String × List String) :
    List String × List String :=
  if st.1.isEmpty && st.2.isEmpty then p.regexTokens.foldl add_candidate st
  else st

/-- The per-payload pipeline of src/bop-nft.py `fetch_bunny_ips`
(lines 69–117): the candidate sets after all three branches. -/
def nftPayloadSets (p : Payload) : List String × List String :=
  nftRegexStage p (nftXmlStage p (nftJsonStage p ([], [])))

/-- Code-point lexicographic comparison of character lists. -/
def charListLe : List Char → List Char → Bool
  | [], _ => true
  | _ :: _, [] => false
  | c :: cs, d :: ds =>
      if c.toNat < d.toNat then true
      else if d.toNat < c.toNat then false
      else charListLe cs ds

/-- Python `a <= b` on strings (code-point lexicographic). -/
def strLe (a b : String) : Bool := charListLe a.toList b.toList

/-- Lines 118–119 of src/bop-nft.py: a payload with any candidate yields
`(sorted v4 numerically, sorted v6 lexicographically)`. -/
def nftPayloadResult (p : Payload) : Option (List String × List String) :=
  let st := nftPayloadSets p
  if st.1.isEmpty && st.2.isEmpty then none
  else some (pySorted octLe st.1, pySorted strLe st.2)

/-- `fetch_bunny_ips` of src/bop-nft.py over the candidate URLs. -/
def nft_fetch_bunny_ips :
    List (Option Payload) → Except Unit (List String × List String)
  | [] => .error ()
  | none :: rest => nft_fetch_bunny_ips rest
  | some p :: rest =>
      match nftPayloadResult p with
      | some r => .ok r
      | none => nft_fetch_bunny_ips rest

/-! ## Concrete payloads used to settle the parsing claims -/

/-- A JSON response carrying the array `["10.0.0.10", "10.0.0.9"]`.
`json.loads` succeeds, `ET.fromstring` raises (no XML), and the fallback
regex would find both dotted tokens. -/
def payload910 : Payload :=
  { ctype := "application/json"
  , text := "[\"10.0.0.10\", \"10.0.0.9\"]"
  , json := some (JVal.jarr [JVal.jstr "10.0.0.10", JVal.jstr "10.0.0.9"])
  , xmlTexts := none
  , regexTokens := ["10.0.0.10", "10.0.0.9"] }

/-- A JSON-object response with a valid IPv4 address under `items` and
another under `data`. -/
def payloadItemsData : Payload :=
  { ctype := "application/json"
  , text := "\x7b\"items\": [\"1.2.3.4\"], \"data\": [\"5.6.7.8\"]\x7d"
  , json := some (JVal.jobj
      [("items", JVal.jarr [JVal.jstr "1.2.3.4"]),
       ("data", JVal.jarr [JVal.jstr "5.6.7.8"])])
  , xmlTexts := none
  , regexTokens := ["1.2.3.4", "5.6.7.8"] }

/-- A JSON response whose only valid address is the IPv6 `2001:db8::1`. -/
def payloadV6only : Payload :=
  { ctype := "application/json"
  , text := "[\"2001:db8::1\"]"
  , json := some (JVal.jarr [JVal.jstr "2001:db8::1"])
  , xmlTexts := none
  , regexTokens := ["2001:db8::1"] }

/-- A JSON response whose only valid address is the IPv4 `1.2.3.4`. -/
def payloadV4only : Payload :=
  { ctype := "application/json"
  , text := "[\"1.2.3.4\"]"
  , json := some (JVal.jarr [JVal.jstr "1.2.3.4"])
  , xmlTexts := none
  , regexTokens := ["1.2.3.4"] }

/-! ## The reconciliation diff (src/bop.py, FirewallManager.sync lines 239–243)

Python:
```
wanted = list(dict.fromkeys(wanted_ips))  # preserve order
prev = set(previous_ips)
add = [ip for ip in wanted if ip not in prev]
remove = [ip for ip in prev if ip not in set(wanted)]
```
The Python set `prev` is modelled as the deduplicated input list; set
iteration order is arbitrary in Python, and only membership matters for
every property proved below. -/

def syncDiff (wantedIps prevIps : List String) : List String × List String :=
  let wanted := dedupKeys wantedIps
  let prev := dedupKeys prevIps
  (wanted.filter (fun ip => decide (ip ∉ prevIps)),
   prev.filter (fun ip => decide (ip ∉ wanted)))

/-- Reading of the persisted snapshot (src/bop.py, `read_local_ips`
lines 169–174): `none` stands for `FileNotFoundError`, in which case the
empty set is returned; otherwise the set of stripped nonempty lines. -/
def read_local_ips : Option String → List String
  | none => []
  | some c =>
      dedupKeys (((pySplit c "\n").map pyStrip).filter (fun l => decide (l ≠ "")))

/-! ## Firewall model: iptables semantics for the commands sync issues

`FwState` is the live firewall truth the commands of `FirewallManager`
read and mutate: whether the managed chain exists, its rule list, and
whether INPUT carries the jump rule.  `iptExec` interprets exactly the
command shapes src/bop.py issues. -/

inductive Rule
  | accept (src : String)
  | drop
deriving DecidableEq, Repr

structure FwState where
  chainExists : Bool
  rules : List Rule
  inputJump : Bool
deriving DecidableEq, Repr

/-- The source addresses accepted by a rule list. -/
def acceptsOf (rules : List Rule) : List String :=
  rules.filterMap (fun r => match r with | .accept s => some s | .drop => none)

/-- The source addresses currently accepted by the managed chain. -/
def accepts (fw : FwState) : List String := acceptsOf fw.rules

structure Proc where
  returncode : Nat
  stdout : String
deriving DecidableEq, Repr

/-- `iptables -S CHAIN` output: the chain declaration followed by one
`-A` line per rule, as iptables prints them (IPv4 sources with `/32`). -/
def renderRule (chain : String) : Rule → String
  | .accept src => "-A " ++ chain ++ " -s " ++ src ++ "/32 -j ACCEPT"
  | .drop => "-A " ++ chain ++ " -j DROP"

def renderChain (chain : String) (rules : List Rule) : String :=
  String.intercalate "\n" (("-N " ++ chain) :: rules.map (renderRule chain))

/-- Interpretation of the iptables invocations `FirewallManager` issues
(argument vectors include the binary name).  Unknown shapes answer with
exit code 2 and no state change. -/
def iptExec (fw : FwState) : List String → Proc × FwState
  | [b, w, c] =>
      if b == "iptables" && w == "-S" then
        if fw.chainExists then (⟨0, renderChain c fw.rules⟩, fw)
        else (⟨1, ""⟩, fw)
      else if b == "iptables" && w == "-N" then
        if fw.chainExists then (⟨1, ""⟩, fw)
        else (⟨0, ""⟩, { fw with chainExists := true })
      else (⟨2, ""⟩, fw)
  | [b, w, _c, j, d] =>
      if b == "iptables" && w == "-D" && j == "-j" && d == "DROP" then
        if Rule.drop ∈ fw.rules then
          (⟨0, ""⟩, { fw with rules := fw.rules.erase Rule.drop })
        else (⟨1, ""⟩, fw)
      else if b == "iptables" && w == "-A" && j == "-j" && d == "DROP" then
        (⟨0, ""⟩, { fw with rules := fw.rules ++ [Rule.drop] })
      else (⟨2, ""⟩, fw)
  | [b, w, _c, s, ip, j, a] =>
      if b == "iptables" && w == "-C" && s == "-s" && j == "-j" && a == "ACCEPT" then
        (⟨if Rule.accept ip ∈ fw.rules then 0 else 1, ""⟩, fw)
      else if b == "iptables" && w == "-D" && s == "-s" && j == "-j"
          && a == "ACCEPT" then
        if Rule.accept ip ∈ fw.rules then
          (⟨0, ""⟩, { fw with rules := fw.rules.erase (Rule.accept ip) })
        else (⟨1, ""⟩, fw)
      else (⟨2, ""⟩, fw)
  | [b, w, _c, one, s, ip, j, a] =>
      if b == "iptables" && w == "-I" && one == "1" && s == "-s" && j == "-j"
          && a == "ACCEPT" then
        (⟨0, ""⟩, { fw with rules := Rule.accept ip :: fw.rules })
      else (⟨2, ""⟩, fw)
  | [b, w, inp, p, tcp, dp, _port, j, _c] =>
      if b == "iptables" && w == "-C" && inp == "INPUT" && p == "-p"
          && tcp == "tcp" && dp == "--dport" && j == "-j" then
        (⟨if fw.inputJump then 0 else 1, ""⟩, fw)
      else (⟨2, ""⟩, fw)
  | [b, w, inp, one, p, tcp, dp, _port, j, _c] =>
      if b == "iptables" && w == "-I" && inp == "INPUT" && one == "1"
          && p == "-p" && tcp == "tcp" && dp == "--dport" && j == "-j" then
        (⟨0, ""⟩, { fw with inputJump := true })
      else (⟨2, ""⟩, fw)
  | _ => (⟨2, ""⟩, fw)

/-- Fault injection: the real iptables may fail any invocation; `faults k`
forces the `k`-th executed command to fail with no state change. -/
def iptExecF (faults : Nat → Bool) (k : Nat) (fw : FwState) (args : List String) :
    Proc × FwState :=
  if faults k then (⟨4, ""⟩, fw) else iptExec fw args

/-! ## Event traces of a run -/

inductive Ev
  | run (args : List String)       -- an actual subprocess execution
  | dryPrint (args : List String)  -- the DRY-RUN echo of a command/script
  | note (msg : String)            -- a print() diagnostic
  | snapWrite (ips : List String)  -- the snapshot file is replaced
  | exitFatal                      -- sys.exit / uncaught exception
deriving DecidableEq, Repr

def isRunEv : Ev → Bool
  | .run _ => true
  | _ => false

def isSnapWrite : Ev → Bool
  | .snapWrite _ => true
  | _ => false

/-- An `iptables -I CHAIN 1 -s ip -j ACCEPT` execution: one addition. -/
def isAddEv (chain : String) : Ev → Bool
  | .run ["iptables", "-I", c, "1", "-s", _, "-j", "ACCEPT"] => c == chain
  | _ => false

/-- An `iptables -D CHAIN -s ip -j ACCEPT` execution: one removal. -/
def isRemEv (chain : String) : Ev → Bool
  | .run ["iptables", "-D", c, "-s", _, "-j", "ACCEPT"] => c == chain
  | _ => false

/-- Classification of one trace event: no snapshot write, no real
execution under dry-run, and — unless the phase is allowed to — no
ACCEPT-rule insertion (`addOk`) or removal (`remOk`). -/
def phaseEvOk (d : Bool) (chain : String) (addOk remOk : Bool) (e : Ev) : Prop :=
  isSnapWrite e = false ∧ (d = true → isRunEv e = false) ∧
  (addOk = false → isAddEv chain e = false) ∧
  (remOk = false → isRemEv chain e = false)

/-- Shell state: the live firewall plus the executed-command counter the
fault oracle is indexed by. -/
structure ShellSt where
  fw : FwState
  k : Nat
deriving DecidableEq, Repr

/-- `Shell.run` (src/bop.py lines 67–78): in dry-run, echo the command and
return a fake success; otherwise execute it, and with `check` a nonzero
exit raises `RuntimeError` (`Except.error`). -/
def shell_run (dryRun : Bool) (faults : Nat → Bool) (st : ShellSt)
    (args : List String) (check : Bool) :
    List Ev × ShellSt × Except Unit Proc :=
  if dryRun then ([.dryPrint args], st, .ok ⟨0, ""⟩)
  else
    let pr := iptExecF faults st.k st.fw args
    ([.run args], ⟨pr.2, st.k + 1⟩,
      if check && pr.1.returncode != 0 then .error () else .ok pr.1)

/-- `Shell.ipt`: prefix the iptables binary. -/
def ipt (d : Bool) (f : Nat → Bool) (st : ShellSt) (args : List String)
    (check : Bool) : List Ev × ShellSt × Except Unit Proc :=
  shell_run d f st ("iptables" :: args) check

/-- `Shell.ipt_exists`: `check=False`, existence = exit code 0. -/
def ipt_exists (d : Bool) (f : Nat → Bool) (st : ShellSt) (args : List String) :
    List Ev × ShellSt × Bool :=
  match ipt d f st args false with
  | (tr, st', .ok p) => (tr, st', p.returncode == 0)
  | (tr, st', .error _) => (tr, st', false)

/-- `Shell.ipt_chain_exists`. -/
def ipt_chain_exists (d : Bool) (f : Nat → Bool) (st : ShellSt) (chain : String) :
    List Ev × ShellSt × Bool :=
  ipt_exists d f st ["-S", chain]

/-- `FirewallManager.ensure_chain_and_jump` (src/bop.py lines 199–209). -/
def ensure_chain_and_jump (d : Bool) (f : Nat → Bool) (st : ShellSt)
    (chain : String) (port : Nat) : List Ev × ShellSt × Except Unit Unit :=
  let (t1, st1, ce) := ipt_chain_exists d f st chain
  let (t2, st2, r2) :=
    if ce then ([], st1, .ok ())
    else
      match ipt d f st1 ["-N", chain] true with
      | (t, st', .ok _) => (t, st', Except.ok ())
      | (t, st', .error _) => (t, st', Except.error ())
  match r2 with
  | .error _ => (t1 ++ t2, st2, .error ())
  | .ok _ =>
      let (t3, st3, je) := ipt_exists d f st2
        ["-C", "INPUT", "-p", "tcp", "--dport", toString port, "-j", chain]
      if je then (t1 ++ t2 ++ t3, st3, .ok ())
      else
        match ipt d f st3
            ["-I", "INPUT", "1", "-p", "tcp", "--dport", toString port,
             "-j", chain] true with
        | (t4, st4, .ok _) => (t1 ++ t2 ++ t3 ++ t4, st4, .ok ())
        | (t4, st4, .error _) => (t1 ++ t2 ++ t3 ++ t4, st4, .error ())

/-- `FirewallManager.add_ip` (src/bop.py lines 230–233). -/
def add_ip (d : Bool) (f : Nat → Bool) (st : ShellSt) (chain ip : String) :
    List Ev × ShellSt × Except Unit Unit :=
  let (t1, st1, ex) := ipt_exists d f st ["-C", chain, "-s", ip, "-j", "ACCEPT"]
  if ex then (t1, st1, .ok ())
  else
    match ipt d f st1 ["-I", chain, "1", "-s", ip, "-j", "ACCEPT"] true with
    | (t2, st2, .ok _) => (t1 ++ t2, st2, .ok ())
    | (t2, st2, .error _) => (t1 ++ t2, st2, .error ())

/-- The `for ip in add` loop of `sync` (src/bop.py lines 254–255). -/
def addLoop (d : Bool) (f : Nat → Bool) (st : ShellSt) (chain : String) :
    List String → List Ev × ShellSt × Except Unit Unit
  | [] => ([], st, .ok ())
  | ip :: rest =>
      match add_ip d f st chain ip with
      | (t, st', .ok _) =>
          match addLoop d f st' chain rest with
          | (t2, st2, r2) => (t ++ t2, st2, r2)
      | (t, st', .error _) => (t, st', .error ())

/-- `FirewallManager.remove_ip` (src/bop.py lines 235–237): `check=False`,
so a removal never raises. -/
def remove_ip (d : Bool) (f : Nat → Bool) (st : ShellSt) (chain ip : String) :
    List Ev × ShellSt :=
  match ipt d f st ["-D", chain, "-s", ip, "-j", "ACCEPT"] false with
  | (t, st', _) => (t, st')

/-- The `for ip in remove` loop of `sync` (src/bop.py lines 257–258). -/
def removeLoop (d : Bool) (f : Nat → Bool) (st : ShellSt) (chain : String) :
    List String → List Ev × ShellSt
  | [] => ([], st)
  | ip :: rest =>
      match remove_ip d f st chain ip with
      | (t, st') =>
          match removeLoop d f st' chain rest with
          | (t2, st2) => (t ++ t2, st2)

/-- Python `line.split()`: whitespace-run split with no empty tokens. -/
def wordsAux : List Char → List Char → List (List Char)
  | [], acc => if acc.isEmpty then [] else [acc.reverse]
  | c :: cs, acc =>
      if c.isWhitespace then
        if acc.isEmpty then wordsAux cs [] else acc.reverse :: wordsAux cs []
      else wordsAux cs (c :: acc)

def pyWords (s : String) : List String := (wordsAux s.toList []).map String.mk

/-- The regex `\s-j\s+DROP(\s|$)` of src/bop.py line 217 on an iptables
`-S` line: an exact `-j` word immediately followed by an exact `DROP`
word. -/
def hasAdjJDrop : List String → Bool
  | [] => false
  | [_] => false
  | w :: v :: rest => (w == "-j" && v == "DROP") || hasAdjJDrop (v :: rest)

/-- The per-line body of `_strip_trailing_drops` (src/bop.py lines
214–220): delete every unconditional DROP rule of the chain. -/
def stripDeleteLoop (d : Bool) (f : Nat → Bool) (st : ShellSt) (chain : String) :
    List String → List Ev × ShellSt × Except Unit Unit
  | [] => ([], st, .ok ())
  | line :: rest =>
      if pyStartsWith line ("-A " ++ chain ++ " ") && hasAdjJDrop (pyWords line) then
        match ipt d f st ("-D" :: chain :: (pyWords line).drop 2) true with
        | (t, st', .ok _) =>
            match stripDeleteLoop d f st' chain rest with
            | (t2, st2, r2) => (t ++ t2, st2, r2)
        | (t, st', .error _) => (t, st', .error ())
      else stripDeleteLoop d f st chain rest

/-- `FirewallManager._strip_trailing_drops` (src/bop.py lines 211–220). -/
def strip_trailing_drops (d : Bool) (f : Nat → Bool) (st : ShellSt)
    (chain : String) : List Ev × ShellSt × Except Unit Unit :=
  match ipt d f st ["-S", chain] true with
  | (t1, st1, .ok p) =>
      match stripDeleteLoop d f st1 chain (pySplit p.stdout "\n") with
      | (t2, st2, r2) => (t1 ++ t2, st2, r2)
  | (t1, st1, .error _) => (t1, st1, .error ())

/-- `FirewallManager.ensure_final_drop` (src/bop.py lines 222–225). -/
def ensure_final_drop (d : Bool) (f : Nat → Bool) (st : ShellSt)
    (chain : String) : List Ev × ShellSt × Except Unit Unit :=
  match strip_trailing_drops d f st chain with
  | (t1, st1, .ok _) =>
      match ipt d f st1 ["-A", chain, "-j", "DROP"] true with
      | (t2, st2, .ok _) => (t1 ++ t2, st2, .ok ())
      | (t2, st2, .error _) => (t1 ++ t2, st2, .error ())
  | (t1, st1, .error _) => (t1, st1, .error ())

/-- `FirewallManager.sync` (src/bop.py lines 239–261): diff, diagnostics,
ensure chain and jump, additions first, then removals, then the final
DROP. -/
def syncRun (d : Bool) (f : Nat → Bool) (st : ShellSt) (chain : String)
    (port : Nat) (wanted_ips previous_ips : List String) :
    List Ev × ShellSt × Except Unit Unit :=
  let add := (syncDiff wanted_ips previous_ips).1
  let remove := (syncDiff wanted_ips previous_ips).2
  let notes :=
    (if add.isEmpty then [] else [Ev.note "Adding"]) ++
    (if remove.isEmpty then [] else [Ev.note "Removing"])
  match ensure_chain_and_jump d f st chain port with
  | (t1, st1, .error _) => (notes ++ t1, st1, .error ())
  | (t1, st1, .ok _) =>
      match addLoop d f st1 chain add with
      | (t2, st2, .error _) => (notes ++ t1 ++ t2, st2, .error ())
      | (t2, st2, .ok _) =>
          match removeLoop d f st2 chain remove with
          | (t3, st3) =>
              match ensure_final_drop d f st3 chain with
              | (t4, st4, r4) => (notes ++ t1 ++ t2 ++ t3 ++ t4, st4, r4)

/-! ## Replay of a trace: the firewall states a run passes through -/

/-- The firewall/counter state after one event (non-`run` events do not
touch the firewall). -/
def stepSt (f : Nat → Bool) (st : ShellSt) : Ev → ShellSt
  | .run args => ⟨(iptExecF f st.k st.fw args).2, st.k + 1⟩
  | _ => st

def replayF (f : Nat → Bool) (st : ShellSt) (evs : List Ev) : ShellSt :=
  evs.foldl (stepSt f) st

/-- Every firewall state visited along a trace, the initial one included. -/
def traceStates (f : Nat → Bool) : ShellSt → List Ev → List FwState
  | st, [] => [st.fw]
  | st, e :: es => st.fw :: traceStates f (stepSt f st e) es

/-- A concrete firewall state used by witnesses: the chain exists, accepts
`9.9.9.9`, ends in DROP, and INPUT has the jump. -/
def fwExample : FwState :=
  { chainExists := true
  , rules := [Rule.accept "9.9.9.9", Rule.drop]
  , inputJump := true }

/-! ## `main` of src/bop.py (lines 269–304) -/

/-- The persisted-snapshot content `write_local_ips` produces: one address
per line, `sorted(set(ips))`. -/
def renderIps (ips : List String) : String :=
  String.join ((pySorted strLe (dedupKeys ips)).map (fun ip => ip ++ "\n"))

/-- `main` of src/bop.py: fetch (fatal on failure or an empty result),
read the snapshot, sync, and only then — and only outside dry-run —
replace the snapshot.  Returns the event trace and the final snapshot
content; an erroring sync propagates (`RuntimeError`), leaving the
snapshot untouched. -/
def bop_main (dryRun : Bool) (faults : Nat → Bool)
    (attempts : List (Option Payload)) (snap0 : Option String)
    (fw0 : FwState) (chain : String) (port : Nat) : List Ev × Option String :=
  match fetch_bunny_ips attempts with
  | .error _ => ([.exitFatal], snap0)
  | .ok remote_ips =>
      if remote_ips.isEmpty then ([.exitFatal], snap0)
      else
        match syncRun dryRun faults ⟨fw0, 0⟩ chain port remote_ips
            (read_local_ips snap0) with
        | (tr, _, .error _) => (tr, snap0)
        | (tr, _, .ok _) =>
            if dryRun then (tr ++ [.note "DRY-RUN: would write"], snap0)
            else (tr ++ [.snapWrite remote_ips, .note "Done."],
                  some (renderIps remote_ips))

/-! ## src/bop-nft.py: script rendering and `main` (lines 139–253) -/

/-- `nft_apply` (src/bop-nft.py lines 139–152): dry-run prints the script;
otherwise `nft -f <file>` runs, with failures injected by `nftFails`. -/
def nft_apply (dryRun : Bool) (nftFails : Nat → Bool) (k : Nat)
    (script : String) : List Ev × Nat × Except Unit Unit :=
  if dryRun then ([.dryPrint [script]], k, .ok ())
  else
    ([.run ["nft", "-f", script]], k + 1,
      if nftFails k then .error () else .ok ())

/-- Successive chunks of at most `n` elements (`range(0, len, 512)`). -/
def chunksAux {α : Type} (n : Nat) : Nat → List α → List (List α)
  | _, [] => []
  | 0, l => [l]
  | fuel + 1, l => l.take n :: chunksAux n fuel (l.drop n)

def chunks512 (l : List String) : List (List String) :=
  chunksAux 512 l.length l

/-- Generic deduplicating sort on naturals (`sorted(set(...))`). -/
def natDedup : List Nat → List Nat
  | [] => []
  | x :: xs => x :: (natDedup xs).filter (fun y => decide (y ≠ x))

def natSorted (ps : List Nat) : List Nat :=
  List.insertionSort (fun a b => a ≤ b) (natDedup ps)

/-- `render_bootstrap` (src/bop-nft.py lines 157–174). -/
def render_bootstrap (table chain : String) (ports : List Nat)
    (ipv6mode : String) : String :=
  let ports_list := String.intercalate ", " ((natSorted ports).map toString)
  let lines : List String :=
    ["table inet " ++ table ++ " \x7b",
     "  set bunny_v4 \x7b type ipv4_addr; \x7d",
     "  set bunny_v6 \x7b type ipv6_addr; \x7d",
     "",
     "  chain " ++ chain ++
       " \x7b type filter hook input priority -150; policy accept; \x7d",
     "\x7d",
     "flush chain inet " ++ table ++ " " ++ chain,
     "add rule inet " ++ table ++ " " ++ chain ++ " tcp dport \x7b " ++
       ports_list ++ " \x7d ip saddr @bunny_v4 accept"] ++
    (if ipv6mode = "allow" then
      ["add rule inet " ++ table ++ " " ++ chain ++ " tcp dport \x7b " ++
        ports_list ++ " \x7d ip6 saddr @bunny_v6 accept"]
     else []) ++
    ["add rule inet " ++ table ++ " " ++ chain ++ " tcp dport \x7b " ++
      ports_list ++ " \x7d drop"]
  String.intercalate "\n" lines

/-- `render_set_update` (src/bop-nft.py lines 177–194): flush each set,
then chunked bulk insertions (IPv6 only in `allow` mode). -/
def render_set_update (table : String) (v4 v6 : List String)
    (ipv6mode : String) : String :=
  let c4 :=
    if v4.isEmpty then []
    else (chunks512 v4).map (fun part =>
      "add element inet " ++ table ++ " bunny_v4 \x7b " ++
        String.intercalate ", " part ++ " \x7d")
  let c6 :=
    if ipv6mode = "allow" && !v6.isEmpty then
      (chunks512 v6).map (fun part =>
        "add element inet " ++ table ++ " bunny_v6 \x7b " ++
          String.intercalate ", " part ++ " \x7d")
    else []
  String.intercalate "\n"
    ((("flush set inet " ++ table ++ " bunny_v4") :: c4) ++
     (("flush set inet " ++ table ++ " bunny_v6") :: c6))

/-- `main` of src/bop-nft.py (lines 212–253): bootstrap apply, **then**
fetch, then the unconditional debug-snapshot write (not guarded by
dry-run, written in place), then the set-update apply.  Uncaught
exceptions (bootstrap failure, fetch failure, set-update failure)
terminate the run. -/
def nft_main (dryRun : Bool) (nftFails : Nat → Bool)
    (attempts : List (Option Payload)) (snap0 : Option String)
    (table chain : String) (ports : List Nat) (ipv6mode : String) :
    List Ev × Option String :=
  match nft_apply dryRun nftFails 0 (render_bootstrap table chain ports ipv6mode) with
  | (t1, _, .error _) => (t1, snap0)
  | (t1, k1, .ok _) =>
      match nft_fetch_bunny_ips attempts with
      | .error _ => (t1 ++ [.exitFatal], snap0)
      | .ok (v4, v6) =>
          let snap1 := some (String.join ((v4 ++ v6).map (fun ip => ip ++ "\n")))
          match nft_apply dryRun nftFails k1
              (render_set_update table v4 v6 ipv6mode) with
          | (t3, _, .error _) =>
              (t1 ++ [.snapWrite (v4 ++ v6)] ++ t3, snap1)
          | (t3, _, .ok _) =>
              (t1 ++ [.snapWrite (v4 ++ v6)] ++ t3 ++ [.note "Applied"], snap1)

/-! ## File-system model of the snapshot writes (for atomicity) -/

inductive FsEv
  | mkstemp                      -- tempfile.mkstemp: fresh empty temp file
  | writeTmpLine (line : String) -- one line written to the temp file
  | replaceTmp                   -- os.replace(tmp_path, path)
  | removeTmp                    -- os.remove(tmp_path)
  | openTrunc                    -- open(path, "w"): target truncated
  | writeLine (line : String)    -- one line written to the target
deriving DecidableEq, Repr

structure FilesSt where
  target : Option String
  tmp : Option String
deriving DecidableEq, Repr

def fsStep (st : FilesSt) : FsEv → FilesSt
  | .mkstemp => { st with tmp := some "" }
  | .writeTmpLine l => { st with tmp := some (st.tmp.getD "" ++ l) }
  | .replaceTmp => { target := st.tmp, tmp := none }
  | .removeTmp => { st with tmp := none }
  | .openTrunc => { st with target := some "" }
  | .writeLine l => { st with target := some (st.target.getD "" ++ l) }

def fsRun (st : FilesSt) (evs : List FsEv) : FilesSt := evs.foldl fsStep st

/-- Events touching only the temp file, never the target. -/
def tmpOnly : FsEv → Bool
  | .mkstemp => true
  | .writeTmpLine _ => true
  | .removeTmp => true
  | _ => false

/-- `write_local_ips` (src/bop.py lines 177–190) as a file-system trace:
write the sorted deduplicated lines to a fresh temp file, then atomically
rename it over the target; if the write loop raises after `n` lines
(`failAfter = some n`), remove the temp file and re-raise. -/
def write_local_ips_fs (ips : List String) (failAfter : Option Nat) : List FsEv :=
  match failAfter with
  | none =>
      FsEv.mkstemp ::
        ((pySorted strLe (dedupKeys ips)).map
          (fun ip => FsEv.writeTmpLine (ip ++ "\n")) ++ [FsEv.replaceTmp])
  | some n =>
      FsEv.mkstemp ::
        (((pySorted strLe (dedupKeys ips)).take n).map
          (fun ip => FsEv.writeTmpLine (ip ++ "\n")) ++ [FsEv.removeTmp])

/-- The debug-snapshot write of src/bop-nft.py `main` (lines 241–247):
a plain in-place `open(path, "w")` followed by line writes. -/
def nft_snapshot_write_fs (v4 v6 : List String) : List FsEv :=
  FsEv.openTrunc :: (v4 ++ v6).map (fun ip => FsEv.writeLine (ip ++ "\n"))


/-! ## Replay and intermediate-state infrastructure for the sync run -/

theorem replayF_append (f : Nat → Bool) (st : ShellSt) (t1 t2 : List Ev) :
    replayF f st (t1 ++ t2) = replayF f (replayF f st t1) t2 :=
  List.foldl_append _ _ _ _

theorem self_mem_traceStates (f : Nat → Bool) (st : ShellSt) (tr : List Ev) :
    st.fw ∈ traceStates f st tr := by
  cases tr <;> exact List.mem_cons_self _ _

theorem mem_traceStates_append (f : Nat → Bool) (S : FwState) :
    ∀ (t1 : List Ev) (st : ShellSt) (t2 : List Ev),
      S ∈ traceStates f st (t1 ++ t2) ↔
        S ∈ traceStates f st t1 ∨ S ∈ traceStates f (replayF f st t1) t2 := by
  intro t1
  induction t1 with
  | nil =>
      intro st t2
      constructor
      · intro h
        exact Or.inr h
      · rintro (h | h)
        · have h' : S = st.fw := by
            have h2 : S ∈ [st.fw] := h
            simpa using h2
          rw [h']
          exact self_mem_traceStates f st t2
        · exact h
  | cons e es ih =>
      intro st t2
      constructor
      · intro h
        have h' : S = st.fw ∨ S ∈ traceStates f (stepSt f st e) (es ++ t2) := by
          have h2 : S ∈ st.fw :: traceStates f (stepSt f st e) (es ++ t2) := h
          simpa using h2
        rcases h' with h' | h'
        · rw [h']
          exact Or.inl (self_mem_traceStates f st (e :: es))
        · rcases (ih (stepSt f st e) t2).mp h' with h2 | h2
          · exact Or.inl (List.mem_cons_of_mem _ h2)
          · exact Or.inr h2
      · rintro (h | h)
        · have h' : S = st.fw ∨ S ∈ traceStates f (stepSt f st e) es := by
            have h2 : S ∈ st.fw :: traceStates f (stepSt f st e) es := h
            simpa using h2
          rcases h' with h' | h'
          · rw [h']
            exact self_mem_traceStates f st ((e :: es) ++ t2)
          · exact List.mem_cons_of_mem _ ((ih (stepSt f st e) t2).mpr (Or.inl h'))
        · exact List.mem_cons_of_mem _ ((ih (stepSt f st e) t2).mpr (Or.inr h))

theorem replay_fw_mem_traceStates (f : Nat → Bool) :
    ∀ (tr : List Ev) (st : ShellSt),
      (replayF f st tr).fw ∈ traceStates f st tr := by
  intro tr
  induction tr with
  | nil => intro st; exact List.mem_cons_self _ _
  | cons e es ih =>
      intro st
      exact List.mem_cons_of_mem _ (ih (stepSt f st e))

theorem traceStates_note (f : Nat → Bool) (st : ShellSt) (m : String)
    (evs : List Ev) :
    traceStates f st (Ev.note m :: evs) = st.fw :: traceStates f st evs := rfl

theorem replayF_note (f : Nat → Bool) (st : ShellSt) (m : String)
    (evs : List Ev) :
    replayF f st (Ev.note m :: evs) = replayF f st evs := rfl

/-! ## Accept-set lemmas -/

theorem acceptsOf_cons_accept (s : String) (rs : List Rule) :
    acceptsOf (Rule.accept s :: rs) = s :: acceptsOf rs := rfl

theorem acceptsOf_cons_drop (rs : List Rule) :
    acceptsOf (Rule.drop :: rs) = acceptsOf rs := rfl

theorem mem_acceptsOf_of_rule {ip : String} {rs : List Rule}
    (h : Rule.accept ip ∈ rs) : ip ∈ acceptsOf rs :=
  List.mem_filterMap.mpr ⟨Rule.accept ip, h, rfl⟩

theorem acceptsOf_erase_drop (rs : List Rule) :
    acceptsOf (rs.erase Rule.drop) = acceptsOf rs := by
  induction rs with
  | nil => rfl
  | cons r rest ih =>
      cases r with
      | accept s =>
          rw [List.erase_cons]
          rw [if_neg (by simp)]
          rw [acceptsOf_cons_accept, acceptsOf_cons_accept, ih]
      | drop =>
          rw [List.erase_cons]
          rw [if_pos (by simp)]
          rw [acceptsOf_cons_drop]

theorem mem_acceptsOf_erase_accept {rs : List Rule} {ip x : String}
    (h : x ∈ acceptsOf (rs.erase (Rule.accept ip))) : x ∈ acceptsOf rs := by
  induction rs with
  | nil => simpa using h
  | cons r rest ih =>
      by_cases hr : r = Rule.accept ip
      · rw [hr, List.erase_cons, if_pos (by simp)] at h
        rw [hr, acceptsOf_cons_accept]
        exact List.mem_cons_of_mem _ h
      · rw [List.erase_cons, if_neg (by simpa using hr)] at h
        cases r with
        | accept s =>
            rw [acceptsOf_cons_accept] at h ⊢
            rcases List.mem_cons.mp h with h' | h'
            · exact List.mem_cons.mpr (Or.inl h')
            · exact List.mem_cons_of_mem _ (ih h')
        | drop =>
            rw [acceptsOf_cons_drop] at h ⊢
            exact ih h

theorem mem_acceptsOf_erase_accept_of_ne {rs : List Rule} {ip x : String}
    (h : x ∈ acceptsOf rs) (hne : x ≠ ip) :
    x ∈ acceptsOf (rs.erase (Rule.accept ip)) := by
  induction rs with
  | nil => simpa using h
  | cons r rest ih =>
      by_cases hr : r = Rule.accept ip
      · rw [List.erase_cons, if_pos (by simp [hr])]
        rw [hr, acceptsOf_cons_accept] at h
        rcases List.mem_cons.mp h with h' | h'
        · exact absurd h' hne
        · exact h'
      · rw [List.erase_cons, if_neg (by simpa using hr)]
        cases r with
        | accept s =>
            rw [acceptsOf_cons_accept] at h ⊢
            rcases List.mem_cons.mp h with h' | h'
            · exact List.mem_cons.mpr (Or.inl h')
            · exact List.mem_cons_of_mem _ (ih h')
        | drop =>
            rw [acceptsOf_cons_drop] at h ⊢
            exact ih h

theorem acceptsOf_append (rs ts : List Rule) :
    acceptsOf (rs ++ ts) = acceptsOf rs ++ acceptsOf ts :=
  List.filterMap_append _ _ _

/-! ## Effect of the individual iptables invocations on the firewall -/

theorem iptExecF_S (f : Nat → Bool) (k : Nat) (fw : FwState) (c : String) :
    (iptExecF f k fw ["iptables", "-S", c]).2 = fw := by
  unfold iptExecF
  split
  · rfl
  · simp only [iptExec]
    cases hce : fw.chainExists <;> simp [hce]

theorem iptExecF_N_rules (f : Nat → Bool) (k : Nat) (fw : FwState) (c : String) :
    ((iptExecF f k fw ["iptables", "-N", c]).2).rules = fw.rules := by
  unfold iptExecF
  split
  · rfl
  · simp only [iptExec]
    cases hce : fw.chainExists <;> simp [hce]

theorem iptExecF_Cinput (f : Nat → Bool) (k : Nat) (fw : FwState)
    (port c : String) :
    (iptExecF f k fw
      ["iptables", "-C", "INPUT", "-p", "tcp", "--dport", port, "-j", c]).2 = fw := by
  unfold iptExecF
  split <;> rfl

theorem iptExecF_Iinput_rules (f : Nat → Bool) (k : Nat) (fw : FwState)
    (port c : String) :
    ((iptExecF f k fw
      ["iptables", "-I", "INPUT", "1", "-p", "tcp", "--dport", port, "-j",
        c]).2).rules = fw.rules := by
  unfold iptExecF
  split <;> rfl

theorem iptExecF_Caccept (f : Nat → Bool) (k : Nat) (fw : FwState)
    (c ip : String) :
    (iptExecF f k fw ["iptables", "-C", c, "-s", ip, "-j", "ACCEPT"]).2 = fw ∧
    ((iptExecF f k fw
        ["iptables", "-C", c, "-s", ip, "-j", "ACCEPT"]).1.returncode = 0 →
      Rule.accept ip ∈ fw.rules) := by
  unfold iptExecF
  split
  · exact ⟨rfl, fun h => absurd (show (4 : Nat) = 0 from h) (by decide)⟩
  · refine ⟨rfl, fun h => ?_⟩
    have h2 : (if Rule.accept ip ∈ fw.rules then (0 : Nat) else 1) = 0 := h
    by_cases hm : Rule.accept ip ∈ fw.rules
    · exact hm
    · rw [if_neg hm] at h2
      exact absurd h2 (by decide)

theorem iptExecF_Iaccept (f : Nat → Bool) (k : Nat) (fw : FwState)
    (c ip : String) :
    (∀ x ∈ accepts fw,
      x ∈ accepts
        (iptExecF f k fw ["iptables", "-I", c, "1", "-s", ip, "-j", "ACCEPT"]).2) ∧
    (∀ x ∈ accepts
        (iptExecF f k fw ["iptables", "-I", c, "1", "-s", ip, "-j", "ACCEPT"]).2,
      x ∈ accepts fw ∨ x = ip) ∧
    ((iptExecF f k fw
        ["iptables", "-I", c, "1", "-s", ip, "-j", "ACCEPT"]).1.returncode = 0 →
      ip ∈ accepts
        (iptExecF f k fw ["iptables", "-I", c, "1", "-s", ip, "-j", "ACCEPT"]).2) := by
  unfold iptExecF
  split
  · exact ⟨fun x hx => hx, fun x hx => Or.inl hx,
      fun h => absurd (show (4 : Nat) = 0 from h) (by decide)⟩
  · refine ⟨?_, ?_, ?_⟩
    · intro x hx
      show x ∈ ip :: acceptsOf fw.rules
      exact List.mem_cons_of_mem _ hx
    · intro x hx
      have hx2 : x ∈ ip :: acceptsOf fw.rules := hx
      rcases List.mem_cons.mp hx2 with h | h
      · exact Or.inr h
      · exact Or.inl h
    · intro _
      show ip ∈ ip :: acceptsOf fw.rules
      exact List.mem_cons_self _ _

theorem iptExecF_Daccept (f : Nat → Bool) (k : Nat) (fw : FwState)
    (c ip : String) :
    (∀ x ∈ accepts
        (iptExecF f k fw ["iptables", "-D", c, "-s", ip, "-j", "ACCEPT"]).2,
      x ∈ accepts fw) ∧
    (∀ x ∈ accepts fw, x ≠ ip →
      x ∈ accepts
        (iptExecF f k fw ["iptables", "-D", c, "-s", ip, "-j", "ACCEPT"]).2) := by
  unfold iptExecF
  split
  · exact ⟨fun x hx => hx, fun x hx _ => hx⟩
  · have hst : (iptExec fw ["iptables", "-D", c, "-s", ip, "-j", "ACCEPT"]).2 =
        if Rule.accept ip ∈ fw.rules then
          { fw with rules := fw.rules.erase (Rule.accept ip) }
        else fw := by
      simp only [iptExec]
      rw [if_neg (by simp), if_pos (by simp)]
      split <;> rfl
    rw [hst]
    by_cases hm : Rule.accept ip ∈ fw.rules
    · rw [if_pos hm]
      exact ⟨fun x hx => mem_acceptsOf_erase_accept hx,
        fun x hx hne => mem_acceptsOf_erase_accept_of_ne hx hne⟩
    · rw [if_neg hm]
      exact ⟨fun x hx => hx, fun x hx _ => hx⟩

theorem iptExecF_Adrop (f : Nat → Bool) (k : Nat) (fw : FwState) (c : String) :
    ∀ x, x ∈ accepts (iptExecF f k fw ["iptables", "-A", c, "-j", "DROP"]).2 ↔
      x ∈ accepts fw := by
  unfold iptExecF
  split
  · intro x
    exact Iff.rfl
  · intro x
    show x ∈ acceptsOf (fw.rules ++ [Rule.drop]) ↔ x ∈ acceptsOf fw.rules
    rw [acceptsOf_append]
    simp [acceptsOf]

theorem iptExecF_strip_delete (f : Nat → Bool) (k : Nat) (fw : FwState)
    (chain w1 : String) (parts : List String)
    (h : hasAdjJDrop ("-A" :: w1 :: parts) = true) :
    ∀ x, x ∈ accepts (iptExecF f k fw ("iptables" :: "-D" :: chain :: parts)).2 ↔
      x ∈ accepts fw := by
  unfold iptExecF
  intro x
  split
  · exact Iff.rfl
  · unfold iptExec
    split
    · next b w c0 heq =>
        injection heq with hb heq
        injection heq with hw heq
        injection heq with hc heq
        subst hb hw hc heq
        simp
    · next b w c0 j d heq =>
        injection heq with hb heq
        injection heq with hw heq
        injection heq with hc heq
        subst hb hw hc heq
        split
        · split
          · show x ∈ acceptsOf (fw.rules.erase Rule.drop) ↔ x ∈ acceptsOf fw.rules
            rw [acceptsOf_erase_drop]
          · exact Iff.rfl
        · simp
    · next b w c0 sflag ip0 j a heq =>
        injection heq with hb heq
        injection heq with hw heq
        injection heq with hc heq
        subst hb hw hc heq
        rw [if_neg (by simp)]
        split
        · next hcond =>
            exfalso
            simp only [Bool.and_eq_true, beq_iff_eq] at hcond
            obtain ⟨⟨⟨⟨-, -⟩, hs⟩, hj⟩, ha⟩ := hcond
            subst hs hj ha
            simp [hasAdjJDrop] at h
        · exact Iff.rfl
    · next b w c0 one sflag ip0 j a heq =>
        injection heq with hb heq
        injection heq with hw heq
        injection heq with hc heq
        subst hb hw hc heq
        simp
    · next b w inp p tcp dp port j c0 heq =>
        injection heq with hb heq
        injection heq with hw heq
        injection heq with hc heq
        subst hb hw hc heq
        simp
    · next b w inp one p tcp dp port j c0 heq =>
        injection heq with hb heq
        injection heq with hw heq
        injection heq with hc heq
        subst hb hw hc heq
        simp
    · exact Iff.rfl

/-! ## Replay fidelity and state facts of the shell wrappers -/

theorem ipt_replay (f : Nat → Bool) (st : ShellSt) (args : List String)
    (check : Bool) :
    replayF f st (ipt false f st args check).1 = (ipt false f st args check).2.1 :=
  rfl

theorem ipt_fw (f : Nat → Bool) (st : ShellSt) (args : List String)
    (check : Bool) :
    (ipt false f st args check).2.1.fw =
      (iptExecF f st.k st.fw ("iptables" :: args)).2 := rfl

theorem ipt_states_mem (f : Nat → Bool) (st : ShellSt) (args : List String)
    (check : Bool) :
    ∀ S ∈ traceStates f st (ipt false f st args check).1,
      S = st.fw ∨ S = (ipt false f st args check).2.1.fw := by
  intro S hS
  have hS' : S ∈ [st.fw, (ipt false f st args check).2.1.fw] := hS
  simpa using hS'

theorem ipt_exists_st (f : Nat → Bool) (st : ShellSt) (args : List String) :
    (ipt_exists false f st args).2.1 = (ipt false f st args false).2.1 := by
  unfold ipt_exists
  rcases ipt false f st args false with ⟨t, st2, r⟩
  cases r <;> rfl

theorem ipt_exists_true_rc (f : Nat → Bool) (st : ShellSt) (args : List String)
    (h : (ipt_exists false f st args).2.2 = true) :
    (iptExecF f st.k st.fw ("iptables" :: args)).1.returncode = 0 := by
  have h2 : ((iptExecF f st.k st.fw ("iptables" :: args)).1.returncode == 0)
      = true := h
  simpa using h2
end BOP

namespace BOP

/-! # Theorems -/

/-! ## Deduplication and diff lemmas -/

theorem mem_dedupKeys {x : String} {l : List String} :
    x ∈ dedupKeys l ↔ x ∈ l := by
  induction l with
  | nil => simp [dedupKeys]
  | cons a as ih =>
    simp only [dedupKeys, List.mem_cons, List.mem_filter, decide_eq_true_eq]
    constructor
    · rintro (rfl | ⟨hx, _⟩)
      · exact Or.inl rfl
      · exact Or.inr (ih.mp hx)
    · rintro (rfl | hx)
      · exact Or.inl rfl
      · by_cases hax : x = a
        · exact Or.inl hax
        · exact Or.inr ⟨ih.mpr hx, hax⟩

theorem nodup_dedupKeys (l : List String) : (dedupKeys l).Nodup := by
  induction l with
  | nil => simp [dedupKeys]
  | cons a as ih =>
    simp only [dedupKeys, List.nodup_cons]
    refine ⟨fun hmem => ?_, ih.filter _⟩
    rcases List.mem_filter.mp hmem with ⟨_, hne⟩
    exact (decide_eq_true_eq.mp hne) rfl

theorem mem_syncDiff_add {x : String} {w p : List String} :
    x ∈ (syncDiff w p).1 ↔ x ∈ w ∧ x ∉ p := by
  simp only [syncDiff, List.mem_filter, decide_eq_true_eq, mem_dedupKeys]

theorem mem_syncDiff_remove {x : String} {w p : List String} :
    x ∈ (syncDiff w p).2 ↔ x ∈ p ∧ x ∉ w := by
  simp only [syncDiff, List.mem_filter, decide_eq_true_eq, mem_dedupKeys]

/-- **C1.** For every pair of finite address sets (desired, current), the
diff computed in `FirewallManager.sync` (`add` = elements of desired not in
current, `remove` = elements of current not in desired) yields `toAdd` and
`toRemove` that are disjoint, and `(current ∪ toAdd) \ toRemove` equals
desired as sets. -/
theorem C1_sync_diff_disjoint_exact (wantedIps prevIps : List String) :
    (∀ x, x ∈ (syncDiff wantedIps prevIps).1 → x ∉ (syncDiff wantedIps prevIps).2) ∧
    (∀ x, ((x ∈ prevIps ∨ x ∈ (syncDiff wantedIps prevIps).1) ∧
        x ∉ (syncDiff wantedIps prevIps).2) ↔ x ∈ wantedIps) := by
  constructor
  · intro x hx
    rcases mem_syncDiff_add.mp hx with ⟨hw, _⟩
    intro hrem
    exact (mem_syncDiff_remove.mp hrem).2 hw
  · intro x
    constructor
    · rintro ⟨hin, hnotrem⟩
      rcases hin with hp | hadd
      · by_contra hnw
        exact hnotrem (mem_syncDiff_remove.mpr ⟨hp, hnw⟩)
      · exact (mem_syncDiff_add.mp hadd).1
    · intro hw
      by_cases hp : x ∈ prevIps
      · exact ⟨Or.inl hp, fun hrem => (mem_syncDiff_remove.mp hrem).2 hw⟩
      · exact ⟨Or.inr (mem_syncDiff_add.mpr ⟨hw, hp⟩),
          fun hrem => (mem_syncDiff_remove.mp hrem).2 hw⟩

/-- **C10.** When the persisted snapshot file does not exist,
`read_local_ips` returns the empty set, and consequently the diff queues
exactly the (deduplicated) freshly fetched addresses for addition and
nothing for removal. -/
theorem C10_first_run_all_added (wantedIps : List String) :
    read_local_ips none = [] ∧
    syncDiff wantedIps (read_local_ips none) = (dedupKeys wantedIps, []) ∧
    (∀ x, x ∈ (syncDiff wantedIps (read_local_ips none)).1 ↔ x ∈ wantedIps) := by
  refine ⟨rfl, ?_, ?_⟩
  · simp [read_local_ips, syncDiff, dedupKeys]
  · intro x
    rw [mem_syncDiff_add]
    simp [read_local_ips]

/-! ## Fetch pipeline lemmas -/

theorem ip_address_empty : ip_address "" = none := by decide

theorem isEmpty_false_of_mem {l : List String} {y : String} (h : y ∈ l) :
    l.isEmpty = false := by
  cases l
  · cases h
  · rfl

theorem mem_insertNew_self (l : List String) (x : String) : x ∈ insertNew l x := by
  unfold insertNew
  split
  · assumption
  · exact List.mem_append_right _ (List.mem_singleton.mpr rfl)

theorem mem_insertNew_of_mem {l : List String} {y : String} (x : String)
    (h : y ∈ l) : y ∈ insertNew l x := by
  unfold insertNew
  split
  · exact h
  · exact List.mem_append_left _ h

theorem nodup_insertNew {l : List String} (x : String) (h : l.Nodup) :
    (insertNew l x).Nodup := by
  unfold insertNew
  split
  · exact h
  · next hx =>
      rw [List.nodup_append]
      refine ⟨h, List.nodup_singleton x, ?_⟩
      intro a hal hax
      rw [List.mem_singleton] at hax
      exact hx (hax ▸ hal)

theorem add_candidate_mem_fst {st : List String × List String} {y : String}
    (s : String) (h : y ∈ st.1) : y ∈ (add_candidate st s).1 := by
  unfold add_candidate
  split
  · exact h
  · split
    · split
      · exact mem_insertNew_of_mem _ h
      · exact h
    · exact h

theorem add_candidate_mem_snd {st : List String × List String} {y : String}
    (s : String) (h : y ∈ st.2) : y ∈ (add_candidate st s).2 := by
  unfold add_candidate
  split
  · exact h
  · split
    · split
      · exact h
      · exact mem_insertNew_of_mem _ h
    · exact h

theorem foldl_add_candidate_mem_fst {α : Type} (f : α → String) (l : List α)
    {st : List String × List String} {y : String} (h : y ∈ st.1) :
    y ∈ (l.foldl (fun a x => add_candidate a (f x)) st).1 := by
  induction l generalizing st with
  | nil => exact h
  | cons a as ih => exact ih (add_candidate_mem_fst _ h)

theorem foldl_add_candidate_mem_snd {α : Type} (f : α → String) (l : List α)
    {st : List String × List String} {y : String} (h : y ∈ st.2) :
    y ∈ (l.foldl (fun a x => add_candidate a (f x)) st).2 := by
  induction l generalizing st with
  | nil => exact h
  | cons a as ih => exact ih (add_candidate_mem_snd _ h)

theorem add_candidate_adds {st : List String × List String} {s : String}
    {ip : IpAddr} (h : ip_address (pyStrip s) = some ip) :
    (ipVersion ip = 4 → ipStr ip ∈ (add_candidate st s).1) ∧
    (¬ipVersion ip = 4 → ipStr ip ∈ (add_candidate st s).2) := by
  have hne : (pyStrip s == "") = false := by
    cases hb : pyStrip s == ""
    · rfl
    · rw [show pyStrip s = "" from by simpa using hb, ip_address_empty] at h
      cases h
  constructor <;> intro hv <;>
    simp [add_candidate, hne, h, hv, mem_insertNew_self]

theorem foldl_add_candidate_adds {α : Type} (f : α → String) {l : List α} {x : α}
    (hx : x ∈ l) (st : List String × List String) {ip : IpAddr}
    (h : ip_address (pyStrip (f x)) = some ip) :
    (ipVersion ip = 4 → ipStr ip ∈ (l.foldl (fun a y => add_candidate a (f y)) st).1) ∧
    (¬ipVersion ip = 4 → ipStr ip ∈ (l.foldl (fun a y => add_candidate a (f y)) st).2) := by
  induction l generalizing st with
  | nil => cases hx
  | cons a as ih =>
    rcases List.mem_cons.mp hx with rfl | hmem
    · refine ⟨fun hv => ?_, fun hv => ?_⟩
      · exact foldl_add_candidate_mem_fst f as ((add_candidate_adds h).1 hv)
      · exact foldl_add_candidate_mem_snd f as ((add_candidate_adds h).2 hv)
    · exact ih hmem _

theorem fieldStep_mem_fst {fs : List (String × JVal)} (key : String)
    {acc : List String × List String} {y : String} (h : y ∈ acc.1) :
    y ∈ (fieldStep fs acc key).1 := by
  unfold fieldStep
  split
  · exact foldl_add_candidate_mem_fst _ _ h
  · exact h

theorem fieldStep_mem_snd {fs : List (String × JVal)} (key : String)
    {acc : List String × List String} {y : String} (h : y ∈ acc.2) :
    y ∈ (fieldStep fs acc key).2 := by
  unfold fieldStep
  split
  · exact foldl_add_candidate_mem_snd _ _ h
  · exact h

theorem fieldStep_adds {fs : List (String × JVal)} {key : String}
    {xs : List JVal} {x : JVal} {ip : IpAddr}
    (hfield : jlookup fs key = some (JVal.jarr xs)) (hx : x ∈ xs)
    (h : ip_address (pyStrip (pyStr x)) = some ip) (acc : List String × List String) :
    ipStr ip ∈ (fieldStep fs acc key).1 ∨ ipStr ip ∈ (fieldStep fs acc key).2 := by
  unfold fieldStep
  rw [hfield]
  by_cases hv : ipVersion ip = 4
  · exact Or.inl ((foldl_add_candidate_adds pyStr hx acc h).1 hv)
  · exact Or.inr ((foldl_add_candidate_adds pyStr hx acc h).2 hv)

theorem nftXmlStage_skip {p : Payload} {st : List String × List String}
    (h : (st.1.isEmpty && st.2.isEmpty) = false) : nftXmlStage p st = st := by
  simp [nftXmlStage, h]

theorem nftRegexStage_skip {p : Payload} {st : List String × List String}
    (h : (st.1.isEmpty && st.2.isEmpty) = false) : nftRegexStage p st = st := by
  simp [nftRegexStage, h]

/-- An address present in either candidate set after the JSON stage
survives the XML and regex stages untouched. -/
theorem nftStages_preserve {p : Payload} {st : List String × List String}
    {y : String} (h : y ∈ st.1 ∨ y ∈ st.2) :
    y ∈ (nftRegexStage p (nftXmlStage p st)).1 ∨
    y ∈ (nftRegexStage p (nftXmlStage p st)).2 := by
  have hemp : (st.1.isEmpty && st.2.isEmpty) = false := by
    rcases h with h | h
    · simp [isEmpty_false_of_mem h]
    · simp [isEmpty_false_of_mem h]
  rw [nftXmlStage_skip hemp, nftRegexStage_skip hemp]
  exact h

theorem mem_try_add_of_mem {ips : List String} {y : String} (seq : List JVal)
    (h : y ∈ ips) : y ∈ try_add ips seq := by
  induction seq generalizing ips with
  | nil => exact h
  | cons a as ih =>
    simp only [try_add, List.foldl_cons] at ih ⊢
    apply ih
    dsimp only
    split
    · exact h
    · split
      · exact mem_insertNew_of_mem _ h
      · exact h

theorem try_add_adds {seq : List JVal} {x : JVal} (hx : x ∈ seq)
    (hf : jFalsy x = false) {ip : IpAddr}
    (h : ip_address (pyStrip (pyStr x)) = some ip) (ips : List String) :
    pyStrip (pyStr x) ∈ try_add ips seq := by
  induction seq generalizing ips with
  | nil => cases hx
  | cons a as ih =>
    rcases List.mem_cons.mp hx with rfl | hmem
    · simp only [try_add, List.foldl_cons]
      apply mem_try_add_of_mem
      simp [hf, h, mem_insertNew_self]
    · simp only [try_add, List.foldl_cons]
      exact ih hmem _

theorem bopXmlStage_skip {p : Payload} {ips : List String}
    (h : ips.isEmpty = false) : bopXmlStage p ips = ips := by
  simp [bopXmlStage, h]

theorem bopRegexStage_skip {p : Payload} {ips : List String}
    (h : ips.isEmpty = false) : bopRegexStage p ips = ips := by
  simp [bopRegexStage, h]

/-! ## Nodup through the bop pipeline -/

theorem nodup_try_add (seq : List JVal) {ips : List String} (h : ips.Nodup) :
    (try_add ips seq).Nodup := by
  induction seq generalizing ips with
  | nil => exact h
  | cons a as ih =>
    simp only [try_add, List.foldl_cons] at ih ⊢
    apply ih
    dsimp only
    split
    · exact h
    · split
      · exact nodup_insertNew _ h
      · exact h

theorem nodup_regexAdd (toks : List String) {ips : List String} (h : ips.Nodup) :
    (regexAdd ips toks).Nodup := by
  induction toks generalizing ips with
  | nil => exact h
  | cons a as ih =>
    simp only [regexAdd, List.foldl_cons] at ih ⊢
    apply ih
    dsimp only
    split
    · exact nodup_insertNew _ h
    · exact h

theorem nodup_bopJsonStage (p : Payload) {ips : List String} (h : ips.Nodup) :
    (bopJsonStage p ips).Nodup := by
  unfold bopJsonStage
  split
  · split
    · exact nodup_try_add _ h
    · split
      · exact nodup_try_add _ h
      · exact h
    · exact h
  · exact h

theorem nodup_bopXmlStage (p : Payload) {ips : List String} (h : ips.Nodup) :
    (bopXmlStage p ips).Nodup := by
  unfold bopXmlStage
  split
  · split
    · exact nodup_try_add _ h
    · exact h
  · exact h

theorem nodup_bopRegexStage (p : Payload) {ips : List String} (h : ips.Nodup) :
    (bopRegexStage p ips).Nodup := by
  unfold bopRegexStage
  split
  · exact nodup_regexAdd _ h
  · exact h

theorem nodup_bopPayloadIps (p : Payload) : (bopPayloadIps p).Nodup :=
  nodup_bopRegexStage p (nodup_bopXmlStage p (nodup_bopJsonStage p List.nodup_nil))

/-! ## The octet order is total and transitive -/

theorem natListLe_total (a : List Nat) :
    ∀ b : List Nat, natListLe a b = true ∨ natListLe b a = true := by
  induction a with
  | nil => intro b; left; rfl
  | cons x xs ih =>
    intro b
    cases b with
    | nil => right; rfl
    | cons y ys =>
      by_cases hxy : x < y
      · left; simp [natListLe, hxy]
      · by_cases hyx : y < x
        · right; simp [natListLe, hyx]
        · have hx : x = y := Nat.le_antisymm (Nat.le_of_not_lt hyx) (Nat.le_of_not_lt hxy)
          subst hx
          rcases ih ys with h | h
          · left; simpa [natListLe, Nat.lt_irrefl] using h
          · right; simpa [natListLe, Nat.lt_irrefl] using h

theorem natListLe_trans (a : List Nat) :
    ∀ b c : List Nat, natListLe a b = true → natListLe b c = true →
      natListLe a c = true := by
  induction a with
  | nil => intro b c _ _; rfl
  | cons x xs ih =>
    intro b c hab hbc
    cases b with
    | nil => simp [natListLe] at hab
    | cons y ys =>
      cases c with
      | nil => simp [natListLe] at hbc
      | cons z zs =>
        by_cases hxy : x < y
        · by_cases hyz : y < z
          · simp [natListLe, Nat.lt_trans hxy hyz]
          · by_cases hzy : z < y
            · simp [natListLe, hyz, hzy] at hbc
            · have : y = z := Nat.le_antisymm (Nat.le_of_not_lt hzy) (Nat.le_of_not_lt hyz)
              subst this
              simp [natListLe, hxy]
        · by_cases hyx : y < x
          · simp [natListLe, hxy, hyx] at hab
          · have hx : x = y := Nat.le_antisymm (Nat.le_of_not_lt hyx) (Nat.le_of_not_lt hxy)
            subst hx
            simp only [natListLe, Nat.lt_irrefl, if_false] at hab
            by_cases hxz : x < z
            · simp [natListLe, hxz]
            · by_cases hzx : z < x
              · simp [natListLe, hxz, hzx] at hbc
              · have : x = z := Nat.le_antisymm (Nat.le_of_not_lt hzx) (Nat.le_of_not_lt hxz)
                subst this
                simp only [natListLe, Nat.lt_irrefl, if_false] at hbc ⊢
                exact ih ys zs hab hbc

instance : IsTotal String (fun a b => octLe a b = true) :=
  ⟨fun a b => natListLe_total (octKey a) (octKey b)⟩

instance : IsTrans String (fun a b => octLe a b = true) :=
  ⟨fun a b c => natListLe_trans (octKey a) (octKey b) (octKey c)⟩

/-! ## `pySorted` facts -/

theorem pySorted_perm (le : String → String → Bool) (l : List String) :
    List.Perm (pySorted le l) l :=
  List.perm_insertionSort _ l

theorem nodup_pySorted (le : String → String → Bool) {l : List String}
    (h : l.Nodup) : (pySorted le l).Nodup :=
  ((pySorted_perm le l).nodup_iff).mpr h

theorem mem_pySorted {le : String → String → Bool} {l : List String}
    {x : String} : x ∈ pySorted le l ↔ x ∈ l :=
  (pySorted_perm le l).mem_iff

theorem sorted_pySorted_oct (l : List String) :
    List.Pairwise (fun a b => octLe a b = true) (pySorted octLe l) :=
  List.sorted_insertionSort _ l

theorem pySorted_ne_nil (le : String → String → Bool) {l : List String}
    (h : l ≠ []) : pySorted le l ≠ [] := by
  intro hc
  apply h
  have hlen := (pySorted_perm le l).length_eq
  rw [hc] at hlen
  exact List.length_eq_zero.mp hlen.symm

/-! ## Shape of the events the shell layer produces -/

theorem shell_run_shape (d : Bool) (f : Nat → Bool) (st : ShellSt)
    (args : List String) (check : Bool) :
    ∀ e ∈ (shell_run d f st args check).1,
      e = if d then Ev.dryPrint args else Ev.run args := by
  intro e he
  unfold shell_run at he
  split at he
  · next hd =>
      rw [List.mem_singleton] at he
      simp [he, hd]
  · next hd =>
      dsimp only at he
      rw [List.mem_singleton] at he
      simp only [he]
      rw [if_neg hd]

theorem ipt_shape (d : Bool) (f : Nat → Bool) (st : ShellSt)
    (args : List String) (check : Bool) :
    ∀ e ∈ (ipt d f st args check).1,
      e = if d then Ev.dryPrint ("iptables" :: args) else Ev.run ("iptables" :: args) :=
  shell_run_shape d f st ("iptables" :: args) check

theorem ipt_exists_trace (d : Bool) (f : Nat → Bool) (st : ShellSt)
    (args : List String) :
    (ipt_exists d f st args).1 = (ipt d f st args false).1 := by
  unfold ipt_exists
  rcases ipt d f st args false with ⟨tr, st', r⟩
  cases r <;> rfl

theorem ipt_exists_shape (d : Bool) (f : Nat → Bool) (st : ShellSt)
    (args : List String) :
    ∀ e ∈ (ipt_exists d f st args).1,
      e = if d then Ev.dryPrint ("iptables" :: args) else Ev.run ("iptables" :: args) := by
  rw [ipt_exists_trace]
  exact ipt_shape d f st args false

/-! ## The strip-drops deletes are never address additions or removals -/

theorem listStartsWith_cons {l : List Char} {p : Char} {ps : List Char}
    (h : listStartsWith l (p :: ps) = true) :
    ∃ l', l = p :: l' ∧ listStartsWith l' ps = true := by
  cases l with
  | nil => cases h
  | cons c cs =>
      rcases Bool.and_eq_true_iff.mp h with ⟨hc, hrest⟩
      exact ⟨cs, by rw [decide_eq_true_eq.mp hc], hrest⟩

/-- A line passing the `startswith("-A CHAIN ")` test begins with the
word `-A`. -/
theorem pyWords_startA {line pre1 pre2 : String}
    (h : pyStartsWith line ("-A " ++ pre1 ++ pre2) = true) :
    ∃ ws, pyWords line = "-A" :: ws := by
  unfold pyStartsWith at h
  rw [show ("-A " ++ pre1 ++ pre2).toList =
      '-' :: 'A' :: ' ' :: (pre1.toList ++ pre2.toList) from rfl] at h
  obtain ⟨l1, he1, h⟩ := listStartsWith_cons h
  obtain ⟨l2, he2, h⟩ := listStartsWith_cons h
  obtain ⟨l3, he3, _⟩ := listStartsWith_cons h
  refine ⟨(wordsAux l3 []).map String.mk, ?_⟩
  unfold pyWords
  rw [he1, he2, he3]
  simp [wordsAux]

/-- If a line carries an adjacent `-j DROP` word pair, the delete command
built from it is never an ACCEPT-rule removal. -/
theorem strip_cmd_not_rem (chain w1 : String) (parts : List String)
    (h : hasAdjJDrop ("-A" :: w1 :: parts) = true) :
    isRemEv chain (Ev.run ("iptables" :: "-D" :: chain :: parts)) = false := by
  unfold isRemEv
  split
  · next heq =>
      exfalso
      injection heq with hlist
      injection hlist with _ hlist
      injection hlist with _ hlist
      injection hlist with _ hlist
      rw [hlist] at h
      simp [hasAdjJDrop] at h
  · rfl

/-! ## Event classification through the sync phases -/

theorem phaseEvOk_of_cmd {d : Bool} {chain : String} {args : List String}
    (addOk remOk : Bool)
    (ha : addOk = false → isAddEv chain (Ev.run args) = false)
    (hr : remOk = false → isRemEv chain (Ev.run args) = false) :
    phaseEvOk d chain addOk remOk (if d then Ev.dryPrint args else Ev.run args) := by
  unfold phaseEvOk
  cases d
  · refine ⟨rfl, ?_, ha, hr⟩
    intro h
    cases h
  · refine ⟨rfl, ?_, ?_, ?_⟩ <;> intro h <;> rfl

theorem phaseEvOk_note {d : Bool} {chain : String} {a r : Bool} {msg : String} :
    phaseEvOk d chain a r (Ev.note msg) := by
  unfold phaseEvOk
  exact ⟨rfl, fun _ => rfl, fun _ => rfl, fun _ => rfl⟩

theorem phaseEvOk_weaken {d : Bool} {chain : String} {a r : Bool} {e : Ev}
    (h : phaseEvOk d chain a r e) : phaseEvOk d chain true true e := by
  unfold phaseEvOk at h ⊢
  refine ⟨h.1, h.2.1, ?_, ?_⟩ <;> · intro hh; simp at hh

theorem phaseEvOk_append {d : Bool} {chain : String} {a r : Bool}
    {t1 t2 : List Ev} (h1 : ∀ e ∈ t1, phaseEvOk d chain a r e)
    (h2 : ∀ e ∈ t2, phaseEvOk d chain a r e) :
    ∀ e ∈ t1 ++ t2, phaseEvOk d chain a r e := by
  intro e he
  rcases List.mem_append.mp he with h | h
  · exact h1 e h
  · exact h2 e h

theorem ipt_events {chain : String} (d : Bool) (f : Nat → Bool) (st : ShellSt)
    (args : List String) (check : Bool)
    (ha : isAddEv chain (Ev.run ("iptables" :: args)) = false)
    (hr : isRemEv chain (Ev.run ("iptables" :: args)) = false) :
    ∀ e ∈ (ipt d f st args check).1, phaseEvOk d chain false false e := by
  intro e he
  rw [ipt_shape d f st args check e he]
  exact phaseEvOk_of_cmd _ _ (fun _ => ha) (fun _ => hr)

theorem ensure_events (d : Bool) (f : Nat → Bool) (st : ShellSt)
    (chain : String) (port : Nat) :
    ∀ e ∈ (ensure_chain_and_jump d f st chain port).1,
      phaseEvOk d chain false false e := by
  intro e he
  unfold ensure_chain_and_jump at he
  split at he
  next t1 st1 ce h1 =>
  have m1 : ∀ e ∈ t1, phaseEvOk d chain false false e := by
    have ht : t1 = (ipt d f st ["-S", chain] false).1 := by
      rw [← ipt_exists_trace d f st ["-S", chain]]
      show t1 = (ipt_chain_exists d f st chain).1
      rw [h1]
    rw [ht]
    exact ipt_events d f st _ false rfl rfl
  split at he
  next t2 st2 r2 h2 =>
  have m2 : ∀ e ∈ t2, phaseEvOk d chain false false e := by
    cases ce
    · rw [if_neg (by simp)] at h2
      rcases h3 : ipt d f st1 ["-N", chain] true with ⟨t, st', r⟩
      rw [h3] at h2
      cases r <;> cases h2 <;>
        · rw [show t2 = (ipt d f st1 ["-N", chain] true).1 from by rw [h3]]
          exact ipt_events d f st1 _ true rfl rfl
    · rw [if_pos rfl] at h2
      cases h2
      intro e he
      cases he
  split at he
  · dsimp only at he
    exact phaseEvOk_append m1 m2 e he
  next a =>
    split at he
    next t3 st3 je h3 =>
    have m3 : ∀ e ∈ t3, phaseEvOk d chain false false e := by
      have ht : t3 = (ipt d f st2
          ["-C", "INPUT", "-p", "tcp", "--dport", toString port, "-j", chain] false).1 := by
        rw [← ipt_exists_trace]
        rw [h3]
      rw [ht]
      exact ipt_events d f st2 _ false rfl rfl
    split at he
    · dsimp only at he
      exact phaseEvOk_append (phaseEvOk_append m1 m2) m3 e he
    · split at he
      next t4 st4 a4 h4 =>
        dsimp only at he
        have m4 : ∀ e ∈ t4, phaseEvOk d chain false false e := by
          have ht : t4 = (ipt d f st3
              ["-I", "INPUT", "1", "-p", "tcp", "--dport", toString port, "-j", chain] true).1 := by
            rw [h4]
          rw [ht]
          exact ipt_events d f st3 _ true rfl rfl
        exact phaseEvOk_append (phaseEvOk_append (phaseEvOk_append m1 m2) m3) m4 e he
      next t4 st4 a4 h4 =>
        dsimp only at he
        have m4 : ∀ e ∈ t4, phaseEvOk d chain false false e := by
          have ht : t4 = (ipt d f st3
              ["-I", "INPUT", "1", "-p", "tcp", "--dport", toString port, "-j", chain] true).1 := by
            rw [h4]
          rw [ht]
          exact ipt_events d f st3 _ true rfl rfl
        exact phaseEvOk_append (phaseEvOk_append (phaseEvOk_append m1 m2) m3) m4 e he

theorem add_ip_events (d : Bool) (f : Nat → Bool) (st : ShellSt)
    (chain ip : String) :
    ∀ e ∈ (add_ip d f st chain ip).1, phaseEvOk d chain true false e := by
  intro e he
  unfold add_ip at he
  split at he
  next t1 st1 ex h1 =>
  have m1 : ∀ e ∈ t1, phaseEvOk d chain true false e := by
    have ht : t1 = (ipt d f st ["-C", chain, "-s", ip, "-j", "ACCEPT"] false).1 := by
      rw [← ipt_exists_trace]
      rw [h1]
    rw [ht]
    intro e he1
    rw [ipt_shape _ _ _ _ _ e he1]
    exact phaseEvOk_of_cmd _ _ (fun hh => nomatch hh) (fun _ => rfl)
  split at he
  · dsimp only at he
    exact m1 e he
  · split at he
    next t2 st2 a2 h2 =>
      dsimp only at he
      rcases List.mem_append.mp he with h | h
      · exact m1 e h
      · have ht : t2 = (ipt d f st1 ["-I", chain, "1", "-s", ip, "-j", "ACCEPT"] true).1 := by
          rw [h2]
        rw [ht] at h
        rw [ipt_shape _ _ _ _ _ e h]
        exact phaseEvOk_of_cmd _ _ (fun hh => nomatch hh) (fun _ => rfl)
    next t2 st2 a2 h2 =>
      dsimp only at he
      rcases List.mem_append.mp he with h | h
      · exact m1 e h
      · have ht : t2 = (ipt d f st1 ["-I", chain, "1", "-s", ip, "-j", "ACCEPT"] true).1 := by
          rw [h2]
        rw [ht] at h
        rw [ipt_shape _ _ _ _ _ e h]
        exact phaseEvOk_of_cmd _ _ (fun hh => nomatch hh) (fun _ => rfl)

theorem addLoop_events (d : Bool) (f : Nat → Bool) (chain : String) :
    ∀ (ips : List String) (st : ShellSt),
      ∀ e ∈ (addLoop d f st chain ips).1, phaseEvOk d chain true false e := by
  intro ips
  induction ips with
  | nil => intro st e he; cases he
  | cons ip rest ih =>
    intro st e he
    unfold addLoop at he
    split at he
    next t st' a h1 =>
      split at he
      next t2 st2 r2 h2 =>
        dsimp only at he
        rcases List.mem_append.mp he with h | h
        · have ht : t = (add_ip d f st chain ip).1 := by rw [h1]
          exact add_ip_events d f st chain ip e (ht ▸ h)
        · have ht : t2 = (addLoop d f st' chain rest).1 := by rw [h2]
          exact ih st' e (ht ▸ h)
    next t st' a h1 =>
      dsimp only at he
      have ht : t = (add_ip d f st chain ip).1 := by rw [h1]
      exact add_ip_events d f st chain ip e (ht ▸ he)

theorem remove_ip_events (d : Bool) (f : Nat → Bool) (st : ShellSt)
    (chain ip : String) :
    ∀ e ∈ (remove_ip d f st chain ip).1, phaseEvOk d chain false true e := by
  intro e he
  unfold remove_ip at he
  split at he
  next t st' r h1 =>
    dsimp only at he
    have ht : t = (ipt d f st ["-D", chain, "-s", ip, "-j", "ACCEPT"] false).1 := by
      rw [h1]
    rw [ht] at he
    rw [ipt_shape _ _ _ _ _ e he]
    exact phaseEvOk_of_cmd _ _ (fun _ => rfl) (fun hh => nomatch hh)

theorem removeLoop_events (d : Bool) (f : Nat → Bool) (chain : String) :
    ∀ (ips : List String) (st : ShellSt),
      ∀ e ∈ (removeLoop d f st chain ips).1, phaseEvOk d chain false true e := by
  intro ips
  induction ips with
  | nil => intro st e he; cases he
  | cons ip rest ih =>
    intro st e he
    unfold removeLoop at he
    split at he
    next t st' h1 =>
      split at he
      next t2 st2 h2 =>
        dsimp only at he
        rcases List.mem_append.mp he with h | h
        · have ht : t = (remove_ip d f st chain ip).1 := by rw [h1]
          exact remove_ip_events d f st chain ip e (ht ▸ h)
        · have ht : t2 = (removeLoop d f st' chain rest).1 := by rw [h2]
          exact ih st' e (ht ▸ h)

theorem stripDeleteLoop_events (d : Bool) (f : Nat → Bool) (chain : String) :
    ∀ (lines : List String) (st : ShellSt),
      ∀ e ∈ (stripDeleteLoop d f st chain lines).1,
        phaseEvOk d chain false false e := by
  intro lines
  induction lines with
  | nil => intro st e he; cases he
  | cons line rest ih =>
    intro st e he
    unfold stripDeleteLoop at he
    split at he
    · next hguard =>
      have hrem : isRemEv chain
          (Ev.run ("iptables" :: "-D" :: chain :: (pyWords line).drop 2)) = false := by
        obtain ⟨hstart, hdrop⟩ := Bool.and_eq_true_iff.mp hguard
        obtain ⟨ws, hws⟩ := pyWords_startA hstart
        rw [hws] at hdrop
        cases ws with
        | nil => simp [hasAdjJDrop] at hdrop
        | cons w1 parts =>
            rw [show (pyWords line).drop 2 = parts from by rw [hws]; rfl]
            exact strip_cmd_not_rem chain w1 parts hdrop
      split at he
      next t st' a h1 =>
        split at he
        next t2 st2 r2 h2 =>
          dsimp only at he
          rcases List.mem_append.mp he with h | h
          · have ht : t = (ipt d f st ("-D" :: chain :: (pyWords line).drop 2) true).1 := by
              rw [h1]
            rw [ht] at h
            rw [ipt_shape _ _ _ _ _ e h]
            exact phaseEvOk_of_cmd _ _ (fun _ => rfl) (fun _ => hrem)
          · have ht : t2 = (stripDeleteLoop d f st' chain rest).1 := by rw [h2]
            exact ih st' e (ht ▸ h)
      next t st' a h1 =>
        dsimp only at he
        have ht : t = (ipt d f st ("-D" :: chain :: (pyWords line).drop 2) true).1 := by
          rw [h1]
        rw [ht] at he
        rw [ipt_shape _ _ _ _ _ e he]
        exact phaseEvOk_of_cmd _ _ (fun _ => rfl) (fun _ => hrem)
    · exact ih st e he

theorem strip_events (d : Bool) (f : Nat → Bool) (st : ShellSt) (chain : String) :
    ∀ e ∈ (strip_trailing_drops d f st chain).1, phaseEvOk d chain false false e := by
  intro e he
  unfold strip_trailing_drops at he
  split at he
  next t1 st1 p h1 =>
    split at he
    next t2 st2 r2 h2 =>
      dsimp only at he
      rcases List.mem_append.mp he with h | h
      · have ht : t1 = (ipt d f st ["-S", chain] true).1 := by rw [h1]
        rw [ht] at h
        rw [ipt_shape _ _ _ _ _ e h]
        exact phaseEvOk_of_cmd _ _ (fun _ => rfl) (fun _ => rfl)
      · have ht : t2 = (stripDeleteLoop d f st1 chain (pySplit p.stdout "\n")).1 := by
          rw [h2]
        exact stripDeleteLoop_events d f chain _ st1 e (ht ▸ h)
  next t1 st1 a h1 =>
    have ht : t1 = (ipt d f st ["-S", chain] true).1 := by rw [h1]
    rw [ht] at he
    rw [ipt_shape _ _ _ _ _ e he]
    exact phaseEvOk_of_cmd _ _ (fun _ => rfl) (fun _ => rfl)

theorem ensure_final_drop_events (d : Bool) (f : Nat → Bool) (st : ShellSt)
    (chain : String) :
    ∀ e ∈ (ensure_final_drop d f st chain).1, phaseEvOk d chain false false e := by
  intro e he
  unfold ensure_final_drop at he
  split at he
  next t1 st1 a h1 =>
    have m1 : ∀ e ∈ t1, phaseEvOk d chain false false e := by
      have ht : t1 = (strip_trailing_drops d f st chain).1 := by rw [h1]
      rw [ht]
      exact strip_events d f st chain
    split at he
    next t2 st2 a2 h2 =>
      dsimp only at he
      rcases List.mem_append.mp he with h | h
      · exact m1 e h
      · have ht : t2 = (ipt d f st1 ["-A", chain, "-j", "DROP"] true).1 := by rw [h2]
        rw [ht] at h
        rw [ipt_shape _ _ _ _ _ e h]
        exact phaseEvOk_of_cmd _ _ (fun _ => rfl) (fun _ => rfl)
    next t2 st2 a2 h2 =>
      dsimp only at he
      rcases List.mem_append.mp he with h | h
      · exact m1 e h
      · have ht : t2 = (ipt d f st1 ["-A", chain, "-j", "DROP"] true).1 := by rw [h2]
        rw [ht] at h
        rw [ipt_shape _ _ _ _ _ e h]
        exact phaseEvOk_of_cmd _ _ (fun _ => rfl) (fun _ => rfl)
  next t1 st1 a h1 =>
    have ht : t1 = (strip_trailing_drops d f st chain).1 := by rw [h1]
    rw [ht] at he
    exact strip_events d f st chain e he

/-- Every event of a full `sync` run: never a snapshot write, and never a
real execution under dry-run. -/
theorem syncRun_events (d : Bool) (f : Nat → Bool) (st : ShellSt)
    (chain : String) (port : Nat) (w p : List String) :
    ∀ e ∈ (syncRun d f st chain port w p).1, phaseEvOk d chain true true e := by
  intro e he
  unfold syncRun at he
  dsimp only at he
  have mnotes : ∀ e ∈ ((if ((syncDiff w p).1).isEmpty then []
      else [Ev.note "Adding"]) ++
      (if ((syncDiff w p).2).isEmpty then [] else [Ev.note "Removing"])),
      phaseEvOk d chain true true e := by
    intro e he2
    rcases List.mem_append.mp he2 with h | h <;>
      · split at h
        · cases h
        · rw [List.mem_singleton] at h
          rw [h]
          exact phaseEvOk_note
  rcases h1 : ensure_chain_and_jump d f st chain port with ⟨t1, st1, r1⟩
  rw [h1] at he
  have m1 : ∀ e ∈ t1, phaseEvOk d chain true true e := by
    have ht : t1 = (ensure_chain_and_jump d f st chain port).1 := by rw [h1]
    rw [ht]
    intro e he2
    exact phaseEvOk_weaken (ensure_events d f st chain port e he2)
  cases r1 with
  | error a =>
      dsimp only at he
      exact phaseEvOk_append mnotes m1 e he
  | ok a =>
      dsimp only at he
      rcases h2 : addLoop d f st1 chain (syncDiff w p).1 with ⟨t2, st2, r2⟩
      rw [h2] at he
      have m2 : ∀ e ∈ t2, phaseEvOk d chain true true e := by
        have ht : t2 = (addLoop d f st1 chain (syncDiff w p).1).1 := by rw [h2]
        rw [ht]
        intro e he2
        exact phaseEvOk_weaken (addLoop_events d f chain _ st1 e he2)
      cases r2 with
      | error a2 =>
          dsimp only at he
          exact phaseEvOk_append (phaseEvOk_append mnotes m1) m2 e he
      | ok a2 =>
          dsimp only at he
          rcases h3 : removeLoop d f st2 chain (syncDiff w p).2 with ⟨t3, st3⟩
          rw [h3] at he
          have m3 : ∀ e ∈ t3, phaseEvOk d chain true true e := by
            have ht : t3 = (removeLoop d f st2 chain (syncDiff w p).2).1 := by rw [h3]
            rw [ht]
            intro e he2
            exact phaseEvOk_weaken (removeLoop_events d f chain _ st2 e he2)
          dsimp only at he
          rcases h4 : ensure_final_drop d f st3 chain with ⟨t4, st4, r4⟩
          rw [h4] at he
          have m4 : ∀ e ∈ t4, phaseEvOk d chain true true e := by
            have ht : t4 = (ensure_final_drop d f st3 chain).1 := by rw [h4]
            rw [ht]
            intro e he2
            exact phaseEvOk_weaken (ensure_final_drop_events d f st3 chain e he2)
          dsimp only at he
          exact phaseEvOk_append
            (phaseEvOk_append (phaseEvOk_append (phaseEvOk_append mnotes m1) m2) m3)
            m4 e he

/-! ## Filter facts for snapshot-ordering statements -/

theorem filter_run_snap_of_no_snap {tr : List Ev}
    (h : ∀ e ∈ tr, isSnapWrite e = false) :
    tr.filter (fun e => isRunEv e || isSnapWrite e) = tr.filter isRunEv ∧
    tr.filter isSnapWrite = [] := by
  constructor
  · apply List.filter_congr
    intro x hx
    rw [h x hx, Bool.or_false]
  · rw [List.filter_eq_nil_iff]
    intro a ha
    rw [h a ha]
    exact Bool.false_ne_true

/-! ## C3: the snapshot is replaced only after a successful apply -/

/-- **C3 is false as stated**: src/bop-nft.py overwrites the snapshot
before the set-update apply.  Concretely, with the second nft invocation
failing, the run ends in a backend error, yet the snapshot file already
holds the new content instead of the previous `"9.9.9.9\n"`. -/
theorem C3_counterexample :
    nft_main false (fun k => k == 1) [some payloadV4only] (some "9.9.9.9\n")
        "bop" "gate" [80, 443] "block" =
      ([Ev.run ["nft", "-f", render_bootstrap "bop" "gate" [80, 443] "block"],
        Ev.snapWrite ["1.2.3.4"],
        Ev.run ["nft", "-f", render_set_update "bop" ["1.2.3.4"] [] "block"]],
       some "1.2.3.4\n") ∧
    some "1.2.3.4\n" ≠ some "9.9.9.9\n" :=
  ⟨rfl, by decide⟩

/-- **C3 (amended).** In src/bop.py the snapshot is replaced only after
the firewall apply has completed without a backend error: every snapshot
write in a `main` trace comes after every executed backend command, and
when the sync phase errors the snapshot is left unchanged.  In
src/bop-nft.py the snapshot is a debug artifact written after the fetch
but before the set-update apply, so it is replaced whether or not that
apply succeeds. -/
theorem C3_amended_persist_after_apply :
    (∀ (d : Bool) (f : Nat → Bool) (a : List (Option Payload)) (s0 : Option String)
        (fw : FwState) (c : String) (pt : Nat),
      ((bop_main d f a s0 fw c pt).1.filter (fun e => isRunEv e || isSnapWrite e) =
        (bop_main d f a s0 fw c pt).1.filter isRunEv ++
        (bop_main d f a s0 fw c pt).1.filter isSnapWrite) ∧
      (∀ remote, fetch_bunny_ips a = .ok remote → remote.isEmpty = false →
        (syncRun d f ⟨fw, 0⟩ c pt remote (read_local_ips s0)).2.2 = .error () →
        (bop_main d f a s0 fw c pt).2 = s0)) ∧
    (∀ (d : Bool) (nf : Nat → Bool) (a : List (Option Payload)) (s0 : Option String)
        (t c : String) (ps : List Nat) (m : String) (v4 v6 : List String),
      nft_fetch_bunny_ips a = .ok (v4, v6) →
      (nft_apply d nf 0 (render_bootstrap t c ps m)).2.2 = .ok () →
      (nft_main d nf a s0 t c ps m).2 =
        some (String.join ((v4 ++ v6).map (fun ip => ip ++ "\n")))) := by
  constructor
  · intro d f a s0 fw c pt
    constructor
    · unfold bop_main
      cases hf : fetch_bunny_ips a with
      | error u => rfl
      | ok remote =>
          dsimp only
          by_cases hemp : remote.isEmpty
          · rw [if_pos hemp]
            rfl
          · rw [if_neg hemp]
            rcases hs : syncRun d f ⟨fw, 0⟩ c pt remote (read_local_ips s0)
              with ⟨tr, stx, r⟩
            have hsync : ∀ e ∈ tr, isSnapWrite e = false := by
              have ht : tr = (syncRun d f ⟨fw, 0⟩ c pt remote (read_local_ips s0)).1 := by
                rw [hs]
              rw [ht]
              intro e he2
              exact (syncRun_events d f _ c pt _ _ e he2).1
            cases r with
            | error u =>
                dsimp only
                rw [(filter_run_snap_of_no_snap hsync).1,
                    (filter_run_snap_of_no_snap hsync).2]
                simp
            | ok u =>
                dsimp only
                cases d
                · rw [if_neg (by simp)]
                  rw [List.filter_append, List.filter_append, List.filter_append,
                      (filter_run_snap_of_no_snap hsync).1,
                      (filter_run_snap_of_no_snap hsync).2]
                  simp [isRunEv, isSnapWrite]
                · rw [if_pos rfl]
                  have hsync2 : ∀ e ∈ tr ++ [Ev.note "DRY-RUN: would write"],
                      isSnapWrite e = false := by
                    intro e he2
                    rcases List.mem_append.mp he2 with h | h
                    · exact hsync e h
                    · rw [List.mem_singleton] at h
                      rw [h]
                      rfl
                  rw [(filter_run_snap_of_no_snap hsync2).1,
                      (filter_run_snap_of_no_snap hsync2).2]
                  simp
    · intro remote hf hemp herr
      unfold bop_main
      rw [hf]
      dsimp only
      rw [if_neg (by simp [hemp])]
      rcases hs : syncRun d f ⟨fw, 0⟩ c pt remote (read_local_ips s0)
        with ⟨tr, stx, r⟩
      rw [hs] at herr
      dsimp only at herr
      rw [herr]
  · intro d nf a s0 t c ps m v4 v6 hf hboot
    unfold nft_main
    rcases hb : nft_apply d nf 0 (render_bootstrap t c ps m) with ⟨t1, k1, r1⟩
    rw [hb] at hboot
    dsimp only at hboot
    rw [hboot]
    dsimp only
    rw [hf]
    dsimp only
    rcases hu : nft_apply d nf k1 (render_set_update t v4 v6 m) with ⟨t3, k3, r3⟩
    cases r3 <;> rfl

/-- Witness for C3 (amended): with the first iptables command faulted the
sync phase errors and the previous snapshot `"9.9.9.9\n"` survives; the
nft variant, by contrast, replaces it after a successful fetch. -/
theorem C3_amended_persist_after_apply_witness :
    (bop_main false (fun k => k == 0) [some payloadV4only] (some "9.9.9.9\n")
        fwExample "BOP_HTTPS" 443).2 = some "9.9.9.9\n" ∧
    (nft_main false (fun _ => false) [some payloadV4only] (some "9.9.9.9\n")
        "bop" "gate" [443] "block").2 = some "1.2.3.4\n" :=
  ⟨(C3_amended_persist_after_apply.1 false (fun k => k == 0) [some payloadV4only]
      (some "9.9.9.9\n") fwExample "BOP_HTTPS" 443).2 ["1.2.3.4"] rfl rfl rfl,
   C3_amended_persist_after_apply.2 false (fun _ => false) [some payloadV4only]
      (some "9.9.9.9\n") "bop" "gate" [443] "block" ["1.2.3.4"] [] rfl rfl⟩

/-! ## C4: a failed fetch -/

/-- **C4 is false as stated**: src/bop-nft.py applies the structural
bootstrap transaction **before** fetching, so when every fetch URL fails
the trace still contains a firewall-backend command. -/
theorem C4_counterexample :
    nft_fetch_bunny_ips ([] : List (Option Payload)) = .error () ∧
    (nft_main false (fun _ => false) [] (some "9.9.9.9\n")
        "bop" "gate" [443] "block").1 =
      [Ev.run ["nft", "-f", render_bootstrap "bop" "gate" [443] "block"],
       Ev.exitFatal] ∧
    isRunEv (Ev.run ["nft", "-f", render_bootstrap "bop" "gate" [443] "block"]) = true ∧
    (nft_main false (fun _ => false) [] (some "9.9.9.9\n")
        "bop" "gate" [443] "block").2 = some "9.9.9.9\n" :=
  ⟨rfl, rfl, rfl, rfl⟩

/-- **C4 (amended).** If the fetch fails, src/bop.py terminates with a
fatal error having issued no backend command and leaving the snapshot
unchanged.  src/bop-nft.py also terminates with the snapshot unchanged
and no snapshot write and no set-content mutation, but its idempotent
bootstrap transaction — applied before the fetch — is the one backend
command its trace may contain. -/
theorem C4_amended_fetch_failure :
    (∀ (d : Bool) (f : Nat → Bool) (a : List (Option Payload)) (s0 : Option String)
        (fw : FwState) (c : String) (pt : Nat),
      fetch_bunny_ips a = .error () →
      bop_main d f a s0 fw c pt = ([Ev.exitFatal], s0)) ∧
    (∀ (d : Bool) (nf : Nat → Bool) (a : List (Option Payload)) (s0 : Option String)
        (t c : String) (ps : List Nat) (m : String),
      nft_fetch_bunny_ips a = .error () →
      (nft_main d nf a s0 t c ps m).2 = s0 ∧
      (∀ e ∈ (nft_main d nf a s0 t c ps m).1, isSnapWrite e = false) ∧
      (∀ e ∈ (nft_main d nf a s0 t c ps m).1, isRunEv e = true →
        e = Ev.run ["nft", "-f", render_bootstrap t c ps m])) := by
  constructor
  · intro d f a s0 fw c pt hf
    unfold bop_main
    rw [hf]
  · intro d nf a s0 t c ps m hf
    unfold nft_main
    rcases hb : nft_apply d nf 0 (render_bootstrap t c ps m) with ⟨t1, k1, r1⟩
    have ht1 : ∀ e ∈ t1, e = Ev.dryPrint [render_bootstrap t c ps m] ∨
        e = Ev.run ["nft", "-f", render_bootstrap t c ps m] := by
      have : t1 = (nft_apply d nf 0 (render_bootstrap t c ps m)).1 := by rw [hb]
      rw [this]
      unfold nft_apply
      cases d
      · rw [if_neg (by simp)]
        intro e he
        rw [List.mem_singleton] at he
        exact Or.inr he
      · rw [if_pos rfl]
        intro e he
        rw [List.mem_singleton] at he
        exact Or.inl he
    cases r1 with
    | error u =>
        dsimp only
        refine ⟨rfl, ?_, ?_⟩
        · intro e he
          rcases ht1 e he with h | h <;> rw [h] <;> rfl
        · intro e he hrun
          rcases ht1 e he with h | h
          · rw [h] at hrun
            cases hrun
          · exact h
    | ok u =>
        dsimp only
        rw [hf]
        dsimp only
        refine ⟨rfl, ?_, ?_⟩
        · intro e he
          rcases List.mem_append.mp he with h | h
          · rcases ht1 e h with h2 | h2 <;> rw [h2] <;> rfl
          · rw [List.mem_singleton] at h
            rw [h]
            rfl
        · intro e he hrun
          rcases List.mem_append.mp he with h | h
          · rcases ht1 e h with h2 | h2
            · rw [h2] at hrun
              cases hrun
            · exact h2
          · rw [List.mem_singleton] at h
            rw [h] at hrun
            cases hrun

/-- Witness for C4 (amended): with no reachable URL, src/bop.py exits
fatally with an untouched snapshot, and src/bop-nft.py keeps its snapshot
with no snapshot-write event in its trace. -/
theorem C4_amended_fetch_failure_witness :
    bop_main false (fun _ => false) [] (some "9.9.9.9\n") fwExample
        "BOP_HTTPS" 443 = ([Ev.exitFatal], some "9.9.9.9\n") ∧
    (nft_main false (fun _ => false) [] (some "9.9.9.9\n")
        "bop" "gate" [443] "block").2 = some "9.9.9.9\n" :=
  ⟨C4_amended_fetch_failure.1 false (fun _ => false) [] (some "9.9.9.9\n")
      fwExample "BOP_HTTPS" 443 rfl,
   (C4_amended_fetch_failure.2 false (fun _ => false) [] (some "9.9.9.9\n")
      "bop" "gate" [443] "block" rfl).1⟩

/-! ## C5: dry-run -/

/-- **C5 is false as stated**: in dry-run src/bop-nft.py still writes the
snapshot/list file.  With the previous snapshot `"9.9.9.9\n"` and a fetch
of `1.2.3.4`, the dry run leaves the file holding `"1.2.3.4\n"`, and the
trace contains a snapshot write. -/
theorem C5_counterexample :
    (nft_main true (fun _ => false) [some payloadV4only] (some "9.9.9.9\n")
        "bop" "gate" [443] "block").2 = some "1.2.3.4\n" ∧
    (some "1.2.3.4\n" : Option String) ≠ some "9.9.9.9\n" ∧
    Ev.snapWrite ["1.2.3.4"] ∈
      (nft_main true (fun _ => false) [some payloadV4only] (some "9.9.9.9\n")
        "bop" "gate" [443] "block").1 := by
  refine ⟨rfl, by decide, ?_⟩
  show Ev.snapWrite ["1.2.3.4"] ∈
    [Ev.dryPrint [render_bootstrap "bop" "gate" [443] "block"],
     Ev.snapWrite ["1.2.3.4"],
     Ev.dryPrint [render_set_update "bop" ["1.2.3.4"] [] "block"],
     Ev.note "Applied"]
  exact List.mem_cons_of_mem _ (List.mem_cons_self _ _)

/-- **C5 (amended).** In dry-run src/bop.py performs no state mutation at
all: its trace contains no real execution and no snapshot write, and the
snapshot is unchanged — fetch and diff still execute for real and drive
the rendered commands.  src/bop-nft.py in dry-run likewise issues no nft
invocation, but it still overwrites the snapshot/list file after a
successful fetch. -/
theorem C5_amended_dry_run :
    (∀ (f : Nat → Bool) (a : List (Option Payload)) (s0 : Option String)
        (fw : FwState) (c : String) (pt : Nat),
      (∀ e ∈ (bop_main true f a s0 fw c pt).1,
        isRunEv e = false ∧ isSnapWrite e = false) ∧
      (bop_main true f a s0 fw c pt).2 = s0) ∧
    (∀ (nf : Nat → Bool) (a : List (Option Payload)) (s0 : Option String)
        (t c : String) (ps : List Nat) (m : String),
      (∀ e ∈ (nft_main true nf a s0 t c ps m).1, isRunEv e = false) ∧
      (∀ v4 v6, nft_fetch_bunny_ips a = .ok (v4, v6) →
        (nft_main true nf a s0 t c ps m).2 =
          some (String.join ((v4 ++ v6).map (fun ip => ip ++ "\n"))))) := by
  constructor
  · intro f a s0 fw c pt
    unfold bop_main
    cases hf : fetch_bunny_ips a with
    | error u =>
        refine ⟨?_, rfl⟩
        intro e he
        rw [List.mem_singleton] at he
        rw [he]
        exact ⟨rfl, rfl⟩
    | ok remote =>
        dsimp only
        by_cases hemp : remote.isEmpty
        · rw [if_pos hemp]
          refine ⟨?_, rfl⟩
          intro e he
          rw [List.mem_singleton] at he
          rw [he]
          exact ⟨rfl, rfl⟩
        · rw [if_neg hemp]
          rcases hs : syncRun true f ⟨fw, 0⟩ c pt remote (read_local_ips s0)
            with ⟨tr, stx, r⟩
          have hsync : ∀ e ∈ tr, isRunEv e = false ∧ isSnapWrite e = false := by
            have ht : tr = (syncRun true f ⟨fw, 0⟩ c pt remote (read_local_ips s0)).1 := by
              rw [hs]
            rw [ht]
            intro e he2
            have hp := syncRun_events true f _ c pt _ _ e he2
            exact ⟨hp.2.1 rfl, hp.1⟩
          cases r with
          | error u => exact ⟨hsync, rfl⟩
          | ok u =>
              dsimp only
              rw [if_pos rfl]
              refine ⟨?_, rfl⟩
              intro e he
              rcases List.mem_append.mp he with h | h
              · exact hsync e h
              · rw [List.mem_singleton] at h
                rw [h]
                exact ⟨rfl, rfl⟩
  · intro nf a s0 t c ps m
    unfold nft_main
    rw [show nft_apply true nf 0 (render_bootstrap t c ps m) =
        ([Ev.dryPrint [render_bootstrap t c ps m]], 0, .ok ()) from rfl]
    dsimp only
    cases hf : nft_fetch_bunny_ips a with
    | error u =>
        refine ⟨?_, ?_⟩
        · intro e he
          rcases List.mem_append.mp he with h | h
          · rw [List.mem_singleton] at h
            rw [h]
            rfl
          · rw [List.mem_singleton] at h
            rw [h]
            rfl
        · intro v4 v6 hok
          cases hok
    | ok vv =>
        rcases vv with ⟨v4, v6⟩
        dsimp only
        rw [show nft_apply true nf 0 (render_set_update t v4 v6 m) =
            ([Ev.dryPrint [render_set_update t v4 v6 m]], 0, .ok ()) from rfl]
        dsimp only
        refine ⟨?_, ?_⟩
        · intro e he
          simp only [List.mem_append, List.mem_singleton] at he
          rcases he with ((h | h) | h) | h <;> rw [h] <;> rfl
        · intro v4' v6' hok
          cases hok
          rfl

/-- Witness for C5 (amended): a concrete dry run of src/bop.py leaves the
snapshot `"9.9.9.9\n"` in place, while the dry run of src/bop-nft.py
replaces it with the fetched list. -/
theorem C5_amended_dry_run_witness :
    (bop_main true (fun _ => false) [some payloadV4only] (some "9.9.9.9\n")
        fwExample "BOP_HTTPS" 443).2 = some "9.9.9.9\n" ∧
    (nft_main true (fun _ => false) [some payloadV4only] (some "9.9.9.9\n")
        "bop" "gate" [443] "block").2 = some "1.2.3.4\n" :=
  ⟨(C5_amended_dry_run.1 (fun _ => false) [some payloadV4only]
      (some "9.9.9.9\n") fwExample "BOP_HTTPS" 443).2,
   (C5_amended_dry_run.2 (fun _ => false) [some payloadV4only]
      (some "9.9.9.9\n") "bop" "gate" [443] "block").2 ["1.2.3.4"] [] rfl⟩

/-! ## C6: atomicity of the snapshot writes -/

theorem strAppend_assoc (a b c : String) : a ++ b ++ c = a ++ (b ++ c) :=
  congrArg String.mk (List.append_assoc a.data b.data c.data)

theorem fsRun_target_of_tmpOnly {evs : List FsEv}
    (h : ∀ e ∈ evs, tmpOnly e = true) (st : FilesSt) :
    (fsRun st evs).target = st.target := by
  induction evs generalizing st with
  | nil => rfl
  | cons e es ih =>
    have he := h e (List.mem_cons_self e es)
    have hrest : ∀ e ∈ es, tmpOnly e = true :=
      fun x hx => h x (List.mem_cons_of_mem e hx)
    show (fsRun (fsStep st e) es).target = st.target
    rw [ih hrest]
    cases e <;> first | rfl | (cases he)

theorem fsRun_writeTmpLines (ls : List String) :
    ∀ (st : FilesSt) (c : String), st.tmp = some c →
      fsRun st (ls.map FsEv.writeTmpLine) =
        { st with tmp := some (ls.foldl (fun r s => r ++ s) c) } := by
  induction ls with
  | nil =>
      intro st c hc
      show st = _
      cases st
      simp only at hc
      rw [hc]
      rfl
  | cons l rest ih =>
      intro st c hc
      show fsRun (fsStep st (FsEv.writeTmpLine l)) (rest.map FsEv.writeTmpLine) = _
      have hstep : fsStep st (FsEv.writeTmpLine l) = { st with tmp := some (c ++ l) } := by
        show { st with tmp := some (st.tmp.getD "" ++ l) } = _
        rw [hc]
        rfl
      rw [hstep, ih _ (c ++ l) rfl]
      rfl

/-- **C6 is false as stated**: the nft variant's snapshot write is a plain
in-place truncate-and-write, and a crash after the first line leaves the
target holding a truncated mixture — neither the previous content nor the
new one — while the bop variant's trace is the temp-and-rename shape. -/
theorem C6_counterexample :
    write_local_ips_fs ["1.2.3.4", "5.6.7.8"] none =
      [FsEv.mkstemp, FsEv.writeTmpLine "1.2.3.4\n",
       FsEv.writeTmpLine "5.6.7.8\n", FsEv.replaceTmp] ∧
    nft_snapshot_write_fs ["1.2.3.4", "5.6.7.8"] [] =
      [FsEv.openTrunc, FsEv.writeLine "1.2.3.4\n", FsEv.writeLine "5.6.7.8\n"] ∧
    (fsRun ⟨some "9.9.9.9\n", none⟩
        ((nft_snapshot_write_fs ["1.2.3.4", "5.6.7.8"] []).take 2)).target =
      some "1.2.3.4\n" ∧
    (some "1.2.3.4\n" : Option String) ≠ some "9.9.9.9\n" ∧
    (some "1.2.3.4\n" : Option String) ≠ some "1.2.3.4\n5.6.7.8\n" :=
  ⟨rfl, rfl, rfl, by decide, by decide⟩

/-- **C6 (amended).** src/bop.py's `write_local_ips` is an atomic replace:
along every prefix of its file-system trace the target holds either its
previous content or the complete new content, and when the write raises,
the temp file is removed and the target is untouched.  The snapshot write
of src/bop-nft.py `main` is instead a plain in-place truncate-and-write
(the counterexample exhibits the truncated intermediate state). -/
theorem C6_amended_atomic_write :
    (∀ (ips : List String) (fa : Option Nat) (st0 : FilesSt) (k : Nat),
      (fsRun st0 ((write_local_ips_fs ips fa).take k)).target = st0.target ∨
      (fsRun st0 ((write_local_ips_fs ips fa).take k)).target =
        some (renderIps ips)) ∧
    (∀ (ips : List String) (n : Nat) (st0 : FilesSt),
      (fsRun st0 (write_local_ips_fs ips (some n))).target = st0.target ∧
      (fsRun st0 (write_local_ips_fs ips (some n))).tmp = none) := by
  constructor
  · intro ips fa st0 k
    cases fa with
    | some n =>
        left
        apply fsRun_target_of_tmpOnly
        intro e he
        have hmem := List.take_subset k _ he
        unfold write_local_ips_fs at hmem
        rcases List.mem_cons.mp hmem with rfl | hmem
        · rfl
        rcases List.mem_append.mp hmem with hmem | hmem
        · rcases List.mem_map.mp hmem with ⟨ip, _, rfl⟩
          rfl
        · rw [List.mem_singleton] at hmem
          rw [hmem]
          rfl
    | none =>
        cases k with
        | zero => left; rfl
        | succ j =>
            unfold write_local_ips_fs
            rw [List.take_succ_cons]
            by_cases hj : j ≤ ((pySorted strLe (dedupKeys ips)).map
                (fun ip => FsEv.writeTmpLine (ip ++ "
"))).length
            · left
              rw [List.take_append_of_le_length hj]
              apply fsRun_target_of_tmpOnly
              intro e he
              rcases List.mem_cons.mp he with rfl | he
              · rfl
              · have hmem := List.take_subset j _ he
                rcases List.mem_map.mp hmem with ⟨ip, _, rfl⟩
                rfl
            · right
              rw [List.take_of_length_le (by simp at hj ⊢; omega)]
              show (fsRun (fsStep st0 FsEv.mkstemp)
                ((pySorted strLe (dedupKeys ips)).map (fun ip =>
                  FsEv.writeTmpLine (ip ++ "
")) ++ [FsEv.replaceTmp])).target = _
              rw [show ((pySorted strLe (dedupKeys ips)).map (fun ip =>
                  FsEv.writeTmpLine (ip ++ "
"))) =
                  (((pySorted strLe (dedupKeys ips)).map (fun ip => ip ++ "
")).map
                    FsEv.writeTmpLine) from by rw [List.map_map]; rfl]
              show (List.foldl fsStep (fsStep st0 FsEv.mkstemp) _).target = _
              rw [List.foldl_append]
              rw [show List.foldl fsStep (fsStep st0 FsEv.mkstemp)
                  (((pySorted strLe (dedupKeys ips)).map (fun ip => ip ++ "
")).map
                    FsEv.writeTmpLine) =
                  fsRun (fsStep st0 FsEv.mkstemp)
                    (((pySorted strLe (dedupKeys ips)).map (fun ip => ip ++ "
")).map
                      FsEv.writeTmpLine) from rfl]
              rw [fsRun_writeTmpLines _ _ "" rfl]
              rfl
  · intro ips n st0
    constructor
    · apply fsRun_target_of_tmpOnly
      intro e he
      unfold write_local_ips_fs at he
      rcases List.mem_cons.mp he with rfl | he
      · rfl
      rcases List.mem_append.mp he with he | he
      · rcases List.mem_map.mp he with ⟨ip, _, rfl⟩
        rfl
      · rw [List.mem_singleton] at he
        rw [he]
        rfl
    · show (fsRun st0 (FsEv.mkstemp ::
          (((pySorted strLe (dedupKeys ips)).take n).map (fun ip =>
            FsEv.writeTmpLine (ip ++ "
")) ++ [FsEv.removeTmp]))).tmp = none
      rw [show (FsEv.mkstemp ::
          (((pySorted strLe (dedupKeys ips)).take n).map (fun ip =>
            FsEv.writeTmpLine (ip ++ "
")) ++ [FsEv.removeTmp])) =
          (FsEv.mkstemp ::
            ((pySorted strLe (dedupKeys ips)).take n).map (fun ip =>
              FsEv.writeTmpLine (ip ++ "
"))) ++ [FsEv.removeTmp] from rfl]
      show (List.foldl fsStep st0 _).tmp = none
      rw [List.foldl_append]
      rfl

/-! ## C7: which JSON fields feed the candidate set -/

/-- **C7 is false as stated**: src/bop.py's JSON branch consults only the
`items` field.  On a JSON object carrying one valid IPv4 address under
`items` and another under `data`, its fetch returns only the former, even
though the `data` address is present and valid. -/
theorem C7_counterexample :
    fetch_bunny_ips [some payloadItemsData] = .ok ["1.2.3.4"] ∧
    jlookup [("items", JVal.jarr [JVal.jstr "1.2.3.4"]),
             ("data", JVal.jarr [JVal.jstr "5.6.7.8"])] "data" =
      some (JVal.jarr [JVal.jstr "5.6.7.8"]) ∧
    ip_address "5.6.7.8" = some (IpAddr.v4 5 6 7 8) ∧
    ¬ "5.6.7.8" ∈ ["1.2.3.4"] :=
  ⟨rfl, rfl, rfl, by decide⟩

/-- **C7 (amended).** src/bop-nft.py extracts candidates from a top-level
JSON array and from each of the object fields `items`, `data` and `ips`:
every valid address found there reaches its family's candidate set.
src/bop.py's JSON branch extracts from a top-level array but, on an
object, only from `items` (addresses under `data`/`ips` can reach its
result only through the regex fallback, when the JSON branch yields
nothing). -/
theorem C7_amended_json_field_extraction :
    (∀ (p : Payload) (fs : List (String × JVal)) (key : String)
        (xs : List JVal) (x : JVal) (ip : IpAddr),
      (strContains p.ctype "json" || pyFirstCharIn p.text "[\x7b") = true →
      p.json = some (JVal.jobj fs) →
      key ∈ ["items", "data", "ips"] →
      jlookup fs key = some (JVal.jarr xs) →
      x ∈ xs →
      ip_address (pyStrip (pyStr x)) = some ip →
      (ipStr ip ∈ (nftPayloadSets p).1 ∨ ipStr ip ∈ (nftPayloadSets p).2)) ∧
    (∀ (p : Payload) (xs : List JVal) (x : JVal) (ip : IpAddr),
      (strContains p.ctype "json" || pyFirstCharIn p.text "[\x7b") = true →
      p.json = some (JVal.jarr xs) →
      x ∈ xs →
      ip_address (pyStrip (pyStr x)) = some ip →
      (ipStr ip ∈ (nftPayloadSets p).1 ∨ ipStr ip ∈ (nftPayloadSets p).2)) ∧
    (∀ (p : Payload) (fs : List (String × JVal)) (xs : List JVal) (x : JVal)
        (ip : IpAddr),
      (strContains p.ctype "json" || pyFirstCharIn p.text "[\x7b]") = true →
      p.json = some (JVal.jobj fs) →
      jlookup fs "items" = some (JVal.jarr xs) →
      x ∈ xs → jFalsy x = false →
      ip_address (pyStrip (pyStr x)) = some ip →
      pyStrip (pyStr x) ∈ bopPayloadIps p) := by
  refine ⟨?_, ?_, ?_⟩
  · intro p fs key xs x ip hclass hjson hkey hfield hx hip
    have hmem : ipStr ip ∈ (nftJsonStage p ([], [])).1 ∨
        ipStr ip ∈ (nftJsonStage p ([], [])).2 := by
      rw [show nftJsonStage p ([], []) =
          ["items", "data", "ips"].foldl (fieldStep fs) ([], []) by
        simp [nftJsonStage, hclass, hjson]]
      simp only [List.foldl_cons, List.foldl_nil]
      rcases List.mem_cons.mp hkey with rfl | hkey
      · rcases fieldStep_adds hfield hx hip ([], []) with h | h
        · exact Or.inl (fieldStep_mem_fst _ (fieldStep_mem_fst _ h))
        · exact Or.inr (fieldStep_mem_snd _ (fieldStep_mem_snd _ h))
      rcases List.mem_cons.mp hkey with rfl | hkey
      · rcases fieldStep_adds hfield hx hip (fieldStep fs ([], []) "items") with h | h
        · exact Or.inl (fieldStep_mem_fst _ h)
        · exact Or.inr (fieldStep_mem_snd _ h)
      rcases List.mem_cons.mp hkey with rfl | hkey
      · exact fieldStep_adds hfield hx hip
          (fieldStep fs (fieldStep fs ([], []) "items") "data")
      · cases hkey
    unfold nftPayloadSets
    exact nftStages_preserve hmem
  · intro p xs x ip hclass hjson hx hip
    have hmem : ipStr ip ∈ (nftJsonStage p ([], [])).1 ∨
        ipStr ip ∈ (nftJsonStage p ([], [])).2 := by
      rw [show nftJsonStage p ([], []) =
          xs.foldl (fun a y => add_candidate a (pyStr y)) ([], []) by
        simp [nftJsonStage, hclass, hjson]]
      by_cases hv : ipVersion ip = 4
      · exact Or.inl ((foldl_add_candidate_adds pyStr hx ([], []) hip).1 hv)
      · exact Or.inr ((foldl_add_candidate_adds pyStr hx ([], []) hip).2 hv)
    unfold nftPayloadSets
    exact nftStages_preserve hmem
  · intro p fs xs x ip hclass hjson hitems hx hf hip
    have hmem : pyStrip (pyStr x) ∈ bopJsonStage p [] := by
      rw [show bopJsonStage p [] = try_add [] xs by
        simp [bopJsonStage, hclass, hjson, hitems]]
      exact try_add_adds hx hf hip []
    unfold bopPayloadIps
    rw [bopXmlStage_skip (isEmpty_false_of_mem hmem),
        bopRegexStage_skip (isEmpty_false_of_mem hmem)]
    exact hmem

/-- Witness for C7 (amended): the `data` field of a concrete JSON-object
payload feeds the nft candidate sets, and the `items` field feeds the bop
candidate set. -/
theorem C7_amended_json_field_extraction_witness :
    ("5.6.7.8" ∈ (nftPayloadSets payloadItemsData).1 ∨
      "5.6.7.8" ∈ (nftPayloadSets payloadItemsData).2) ∧
    "1.2.3.4" ∈ bopPayloadIps payloadItemsData :=
  ⟨C7_amended_json_field_extraction.1 payloadItemsData
      [("items", JVal.jarr [JVal.jstr "1.2.3.4"]),
       ("data", JVal.jarr [JVal.jstr "5.6.7.8"])]
      "data" [JVal.jstr "5.6.7.8"] (JVal.jstr "5.6.7.8") (IpAddr.v4 5 6 7 8)
      rfl rfl (by decide) rfl (List.mem_singleton.mpr rfl) rfl,
   C7_amended_json_field_extraction.2.2 payloadItemsData
      [("items", JVal.jarr [JVal.jstr "1.2.3.4"]),
       ("data", JVal.jarr [JVal.jstr "5.6.7.8"])]
      [JVal.jstr "1.2.3.4"] (JVal.jstr "1.2.3.4") (IpAddr.v4 1 2 3 4)
      rfl rfl rfl (List.mem_singleton.mpr rfl) rfl rfl⟩

/-! ## C8: single-family payloads -/

/-- **C8 is false as stated for src/bop.py**: a payload whose only valid
address is the IPv6 `2001:db8::1` (so all valid addresses belong to one
family) makes the nft pipeline produce a nonempty v6 set, but src/bop.py
— which returns IPv4 only — yields the empty list, and its `main` then
aborts with a fatal error before touching the firewall or snapshot. -/
theorem C8_counterexample :
    nftPayloadSets payloadV6only = ([], ["2001:db8::1"]) ∧
    fetch_bunny_ips [some payloadV6only] = .ok [] ∧
    (∀ dry f s0 fw c pt,
      bop_main dry f [some payloadV6only] s0 fw c pt = ([Ev.exitFatal], s0)) :=
  ⟨rfl, rfl, fun _ _ _ _ _ _ => rfl⟩

/-- **C8 (amended).** src/bop-nft.py treats the families independently: a
payload with candidates in only one family succeeds, returning that
family nonempty and the other empty.  src/bop.py returns IPv4 only, so
the same holds for IPv4-only payloads, while a payload whose candidates
are all IPv6 yields `ok []` (on which `main` aborts). -/
theorem C8_amended_single_family :
    (∀ p : Payload, (nftPayloadSets p).1 ≠ [] → (nftPayloadSets p).2 = [] →
      nft_fetch_bunny_ips [some p] =
        .ok (pySorted octLe (nftPayloadSets p).1, []) ∧
      pySorted octLe (nftPayloadSets p).1 ≠ []) ∧
    (∀ p : Payload, (nftPayloadSets p).1 = [] → (nftPayloadSets p).2 ≠ [] →
      nft_fetch_bunny_ips [some p] =
        .ok ([], pySorted strLe (nftPayloadSets p).2) ∧
      pySorted strLe (nftPayloadSets p).2 ≠ []) ∧
    (∀ p : Payload, bopPayloadIps p ≠ [] →
      (∀ s ∈ bopPayloadIps p, strContains s "." = true) →
      fetch_bunny_ips [some p] = .ok (pySorted octLe (bopPayloadIps p)) ∧
      pySorted octLe (bopPayloadIps p) ≠ []) ∧
    (∀ p : Payload, (∀ s ∈ bopPayloadIps p, strContains s "." = false) →
      bopPayloadIps p ≠ [] →
      fetch_bunny_ips [some p] = .ok []) := by
  refine ⟨?_, ?_, ?_, ?_⟩
  · intro p h1 h2
    have he : ((nftPayloadSets p).1.isEmpty && (nftPayloadSets p).2.isEmpty) = false := by
      cases hx : (nftPayloadSets p).1
      · exact absurd hx h1
      · rfl
    constructor
    · show (match nftPayloadResult p with
        | some r => Except.ok r
        | none => nft_fetch_bunny_ips []) = _
      rw [show nftPayloadResult p =
          some (pySorted octLe (nftPayloadSets p).1, pySorted strLe (nftPayloadSets p).2) by
        simp only [nftPayloadResult, he]
        rfl]
      rw [h2]
      rfl
    · exact pySorted_ne_nil _ h1
  · intro p h1 h2
    have he : ((nftPayloadSets p).1.isEmpty && (nftPayloadSets p).2.isEmpty) = false := by
      rw [h1]
      cases hx : (nftPayloadSets p).2
      · exact absurd hx h2
      · rfl
    constructor
    · show (match nftPayloadResult p with
        | some r => Except.ok r
        | none => nft_fetch_bunny_ips []) = _
      rw [show nftPayloadResult p =
          some (pySorted octLe (nftPayloadSets p).1, pySorted strLe (nftPayloadSets p).2) by
        simp only [nftPayloadResult, he]
        rfl]
      rw [h1]
      rfl
    · exact pySorted_ne_nil _ h2
  · intro p h1 hall
    have he : (bopPayloadIps p).isEmpty = false := by
      cases hx : bopPayloadIps p
      · exact absurd hx h1
      · rfl
    have hfe : (bopPayloadIps p).filter (fun ip => strContains ip ".") =
        bopPayloadIps p :=
      List.filter_eq_self.mpr hall
    constructor
    · show (match bopPayloadResult p with
        | some v4 => Except.ok v4
        | none => fetch_bunny_ips []) = _
      rw [show bopPayloadResult p = some (pySorted octLe (bopPayloadIps p)) by
        simp only [bopPayloadResult, he, hfe]
        rfl]
    · exact pySorted_ne_nil _ h1
  · intro p hall h1
    have he : (bopPayloadIps p).isEmpty = false := by
      cases hx : bopPayloadIps p
      · exact absurd hx h1
      · rfl
    have hfe : (bopPayloadIps p).filter (fun ip => strContains ip ".") = [] := by
      rw [List.filter_eq_nil_iff]
      intro a ha
      rw [hall a ha]
      exact Bool.false_ne_true
    show (match bopPayloadResult p with
      | some v4 => Except.ok v4
      | none => fetch_bunny_ips []) = _
    rw [show bopPayloadResult p = some [] by
      simp only [bopPayloadResult, he, hfe]
      rfl]

/-- Witness for C8 (amended) on concrete single-family payloads of each
shape. -/
theorem C8_amended_single_family_witness :
    (nft_fetch_bunny_ips [some payloadV4only] = .ok (["1.2.3.4"], []) ∧
      nft_fetch_bunny_ips [some payloadV6only] = .ok ([], ["2001:db8::1"])) ∧
    fetch_bunny_ips [some payloadV4only] = .ok ["1.2.3.4"] ∧
    fetch_bunny_ips [some payloadV6only] = .ok [] := by
  refine ⟨⟨?_, ?_⟩, ?_, ?_⟩
  · exact (C8_amended_single_family.1 payloadV4only (by decide) (by decide)).1
  · exact (C8_amended_single_family.2.1 payloadV6only (by decide) (by decide)).1
  · exact (C8_amended_single_family.2.2.1 payloadV4only (by decide) (by decide)).1
  · exact C8_amended_single_family.2.2.2 payloadV6only (by decide) (by decide)

/-! ## C9: the returned IPv4 list is deduplicated and octet-sorted -/

/-- **C9.** Every IPv4 list src/bop.py `fetch_bunny_ips` returns is
duplicate-free and sorted by comparing the dotted octets numerically
(lexicographically on the tuple of octet values), not lexicographically
on the strings. -/
theorem C9_fetch_result_sorted (attempts : List (Option Payload))
    (v4s : List String) (h : fetch_bunny_ips attempts = .ok v4s) :
    v4s.Nodup ∧ List.Pairwise (fun a b => octLe a b = true) v4s := by
  induction attempts with
  | nil => cases h
  | cons a rest ih =>
    cases a with
    | none => exact ih h
    | some p =>
      have hh : (match bopPayloadResult p with
          | some v4 => Except.ok v4
          | none => fetch_bunny_ips rest) = Except.ok v4s := h
      cases hr : bopPayloadResult p with
      | none =>
          rw [hr] at hh
          exact ih hh
      | some r =>
          rw [hr] at hh
          have hrv : r = v4s := by
            cases hh
            rfl
          subst hrv
          simp only [bopPayloadResult] at hr
          by_cases he : (bopPayloadIps p).isEmpty
          · rw [if_pos he] at hr
            cases hr
          · rw [if_neg he] at hr
            have := hr
            injection this with hv
            rw [← hv]
            exact ⟨nodup_pySorted _ ((nodup_bopPayloadIps p).filter _),
                   sorted_pySorted_oct _⟩

/-- Witness for C9: on the concrete set `{"10.0.0.10", "10.0.0.9"}` the
returned order is `["10.0.0.9", "10.0.0.10"]` — numeric per-octet, not
lexicographic — and the theorem's conclusions hold of it. -/
theorem C9_fetch_result_sorted_witness :
    fetch_bunny_ips [some payload910] = .ok ["10.0.0.9", "10.0.0.10"] ∧
    (["10.0.0.9", "10.0.0.10"] : List String).Nodup ∧
    List.Pairwise (fun a b => octLe a b = true) ["10.0.0.9", "10.0.0.10"] :=
  ⟨rfl, C9_fetch_result_sorted [some payload910] ["10.0.0.9", "10.0.0.10"] rfl⟩

/-! ## Composition helpers for intermediate-state reasoning -/

theorem pred_traceStates_append {P : FwState → Prop} {f : Nat → Bool}
    {st : ShellSt} {t1 t2 : List Ev}
    (h1 : ∀ S ∈ traceStates f st t1, P S)
    (h2 : ∀ S ∈ traceStates f (replayF f st t1) t2, P S) :
    ∀ S ∈ traceStates f st (t1 ++ t2), P S := by
  intro S hS
  rcases (mem_traceStates_append f S t1 st t2).mp hS with h | h
  · exact h1 S h
  · exact h2 S h

theorem ipt_eq_parts {f : Nat → Bool} {st : ShellSt} {args : List String}
    {check : Bool} {t : List Ev} {st' : ShellSt} {r : Except Unit Proc}
    (h : ipt false f st args check = (t, st', r)) :
    replayF f st t = st' ∧
    st'.fw = (iptExecF f st.k st.fw ("iptables" :: args)).2 ∧
    ∀ S ∈ traceStates f st t,
      S = st.fw ∨ S = (iptExecF f st.k st.fw ("iptables" :: args)).2 := by
  have ht : t = (ipt false f st args check).1 := by rw [h]
  have hst : st' = (ipt false f st args check).2.1 := by rw [h]
  refine ⟨?_, ?_, ?_⟩
  · rw [ht, hst]
    exact ipt_replay f st args check
  · rw [hst]
    exact ipt_fw f st args check
  · intro S hS
    rw [ht] at hS
    rcases ipt_states_mem f st args check S hS with h2 | h2
    · exact Or.inl h2
    · exact Or.inr (by rw [h2, ipt_fw])

theorem ipt_exists_eq_parts {f : Nat → Bool} {st : ShellSt}
    {args : List String} {t : List Ev} {st' : ShellSt} {b : Bool}
    (h : ipt_exists false f st args = (t, st', b)) :
    replayF f st t = st' ∧
    st'.fw = (iptExecF f st.k st.fw ("iptables" :: args)).2 ∧
    (∀ S ∈ traceStates f st t,
      S = st.fw ∨ S = (iptExecF f st.k st.fw ("iptables" :: args)).2) ∧
    (b = true → (iptExecF f st.k st.fw ("iptables" :: args)).1.returncode = 0) := by
  have ht : t = (ipt false f st args false).1 := by
    rw [← ipt_exists_trace false f st args, h]
  have hst : st' = (ipt false f st args false).2.1 := by
    rw [← ipt_exists_st f st args, h]
  refine ⟨?_, ?_, ?_, ?_⟩
  · rw [ht, hst]
    exact ipt_replay f st args false
  · rw [hst]
    exact ipt_fw f st args false
  · intro S hS
    rw [ht] at hS
    rcases ipt_states_mem f st args false S hS with h2 | h2
    · exact Or.inl h2
    · exact Or.inr (by rw [h2, ipt_fw])
  · intro hb
    apply ipt_exists_true_rc f st args
    rw [h, hb]

/-! ## `ensure_chain_and_jump` replays faithfully and never touches the
rule list -/

theorem ensure_states (f : Nat → Bool) (st : ShellSt) (chain : String)
    (port : Nat) :
    replayF f st (ensure_chain_and_jump false f st chain port).1 =
      (ensure_chain_and_jump false f st chain port).2.1 ∧
    (ensure_chain_and_jump false f st chain port).2.1.fw.rules = st.fw.rules ∧
    ∀ S ∈ traceStates f st (ensure_chain_and_jump false f st chain port).1,
      S.rules = st.fw.rules := by
  unfold ensure_chain_and_jump
  rcases h1 : ipt_chain_exists false f st chain with ⟨t1, st1, ce⟩
  have h1' : ipt_exists false f st ["-S", chain] = (t1, st1, ce) := h1
  obtain ⟨hrep1, hfw1, hmemS1, -⟩ := ipt_exists_eq_parts h1'
  rw [iptExecF_S] at hfw1 hmemS1
  have hm1 : ∀ S ∈ traceStates f st t1, S.rules = st.fw.rules := by
    intro S hS
    rcases hmemS1 S hS with h | h <;> rw [h]
  dsimp only
  cases ce with
  | true =>
      rw [if_pos rfl]
      dsimp only
      rcases h3 : ipt_exists false f st1
          ["-C", "INPUT", "-p", "tcp", "--dport", toString port, "-j", chain]
          with ⟨t3, st3, je⟩
      obtain ⟨hrep3, hfw3, hmemS3, -⟩ := ipt_exists_eq_parts h3
      rw [iptExecF_Cinput] at hfw3 hmemS3
      have hm3 : ∀ S ∈ traceStates f st1 t3, S.rules = st.fw.rules := by
        intro S hS
        rcases hmemS3 S hS with h | h <;> rw [h, hfw1]
      dsimp only
      cases je with
      | true =>
          rw [if_pos rfl]
          refine ⟨?_, ?_, ?_⟩
          · rw [replayF_append, replayF_append, hrep1]
            show replayF f (replayF f st1 []) t3 = st3
            rw [show replayF f st1 [] = st1 from rfl, hrep3]
          · show st3.fw.rules = st.fw.rules
            rw [hfw3, hfw1]
          · show ∀ S ∈ traceStates f st (t1 ++ [] ++ t3), S.rules = st.fw.rules
            refine pred_traceStates_append (pred_traceStates_append hm1 ?_) ?_
            · rw [hrep1]
              intro S hS
              have hS2 : S ∈ [st1.fw] := hS
              rcases List.mem_singleton.mp hS2 with rfl
              rw [hfw1]
            · rw [replayF_append, hrep1]
              rw [show replayF f st1 [] = st1 from rfl]
              exact hm3
      | false =>
          rw [if_neg (by simp)]
          rcases h4 : ipt false f st3
              ["-I", "INPUT", "1", "-p", "tcp", "--dport", toString port,
               "-j", chain] true with ⟨t4, st4, r4⟩
          obtain ⟨hrep4, hfw4, hmemS4⟩ := ipt_eq_parts h4
          have hr4 : st4.fw.rules = st.fw.rules := by
            rw [hfw4, iptExecF_Iinput_rules, hfw3, hfw1]
          have hm4 : ∀ S ∈ traceStates f st3 t4, S.rules = st.fw.rules := by
            intro S hS
            rcases hmemS4 S hS with h | h
            · rw [h, hfw3, hfw1]
            · rw [h, iptExecF_Iinput_rules, hfw3, hfw1]
          cases r4 with
          | ok a =>
              dsimp only
              refine ⟨?_, hr4, ?_⟩
              · rw [replayF_append, replayF_append, replayF_append, hrep1]
                rw [show replayF f st1 [] = st1 from rfl, hrep3, hrep4]
              · refine pred_traceStates_append
                  (pred_traceStates_append (pred_traceStates_append hm1 ?_) ?_) ?_
                · rw [hrep1]
                  intro S hS
                  have hS2 : S ∈ [st1.fw] := hS
                  rcases List.mem_singleton.mp hS2 with rfl
                  rw [hfw1]
                · rw [replayF_append, hrep1,
                    show replayF f st1 [] = st1 from rfl]
                  exact hm3
                · rw [replayF_append, replayF_append, hrep1,
                    show replayF f st1 [] = st1 from rfl, hrep3]
                  exact hm4
          | error a =>
              dsimp only
              refine ⟨?_, hr4, ?_⟩
              · rw [replayF_append, replayF_append, replayF_append, hrep1]
                rw [show replayF f st1 [] = st1 from rfl, hrep3, hrep4]
              · refine pred_traceStates_append
                  (pred_traceStates_append (pred_traceStates_append hm1 ?_) ?_) ?_
                · rw [hrep1]
                  intro S hS
                  have hS2 : S ∈ [st1.fw] := hS
                  rcases List.mem_singleton.mp hS2 with rfl
                  rw [hfw1]
                · rw [replayF_append, hrep1,
                    show replayF f st1 [] = st1 from rfl]
                  exact hm3
                · rw [replayF_append, replayF_append, hrep1,
                    show replayF f st1 [] = st1 from rfl, hrep3]
                  exact hm4
  | false =>
      rw [if_neg (by simp)]
      rcases h2 : ipt false f st1 ["-N", chain] true with ⟨t2, st2, r2⟩
      obtain ⟨hrep2, hfw2, hmemS2⟩ := ipt_eq_parts h2
      have hr2 : st2.fw.rules = st.fw.rules := by
        rw [hfw2, iptExecF_N_rules, hfw1]
      have hm2 : ∀ S ∈ traceStates f st1 t2, S.rules = st.fw.rules := by
        intro S hS
        rcases hmemS2 S hS with h | h
        · rw [h, hfw1]
        · rw [h, iptExecF_N_rules, hfw1]
      cases r2 with
      | error a =>
          dsimp only
          refine ⟨?_, hr2, ?_⟩
          · rw [replayF_append, hrep1, hrep2]
          · exact pred_traceStates_append hm1 (by rw [hrep1]; exact hm2)
      | ok a =>
          dsimp only
          rcases h3 : ipt_exists false f st2
              ["-C", "INPUT", "-p", "tcp", "--dport", toString port, "-j", chain]
              with ⟨t3, st3, je⟩
          obtain ⟨hrep3, hfw3, hmemS3, -⟩ := ipt_exists_eq_parts h3
          rw [iptExecF_Cinput] at hfw3 hmemS3
          have hm3 : ∀ S ∈ traceStates f st2 t3, S.rules = st.fw.rules := by
            intro S hS
            rcases hmemS3 S hS with h | h <;> rw [h, hr2]
          dsimp only
          cases je with
          | true =>
              rw [if_pos rfl]
              refine ⟨?_, ?_, ?_⟩
              · rw [replayF_append, replayF_append, hrep1, hrep2, hrep3]
              · show st3.fw.rules = st.fw.rules
                rw [hfw3, hr2]
              · refine pred_traceStates_append
                  (pred_traceStates_append hm1 ?_) ?_
                · rw [hrep1]
                  exact hm2
                · rw [replayF_append, hrep1, hrep2]
                  exact hm3
          | false =>
              rw [if_neg (by simp)]
              rcases h4 : ipt false f st3
                  ["-I", "INPUT", "1", "-p", "tcp", "--dport", toString port,
                   "-j", chain] true with ⟨t4, st4, r4⟩
              obtain ⟨hrep4, hfw4, hmemS4⟩ := ipt_eq_parts h4
              have hr4 : st4.fw.rules = st.fw.rules := by
                rw [hfw4, iptExecF_Iinput_rules, hfw3, hr2]
              have hm4 : ∀ S ∈ traceStates f st3 t4, S.rules = st.fw.rules := by
                intro S hS
                rcases hmemS4 S hS with h | h
                · rw [h, hfw3, hr2]
                · rw [h, iptExecF_Iinput_rules, hfw3, hr2]
              cases r4 with
              | ok a =>
                  dsimp only
                  refine ⟨?_, hr4, ?_⟩
                  · rw [replayF_append, replayF_append, replayF_append,
                      hrep1, hrep2, hrep3, hrep4]
                  · refine pred_traceStates_append
                      (pred_traceStates_append
                        (pred_traceStates_append hm1 ?_) ?_) ?_
                    · rw [hrep1]
                      exact hm2
                    · rw [replayF_append, hrep1, hrep2]
                      exact hm3
                    · rw [replayF_append, replayF_append, hrep1, hrep2, hrep3]
                      exact hm4
              | error a =>
                  dsimp only
                  refine ⟨?_, hr4, ?_⟩
                  · rw [replayF_append, replayF_append, replayF_append,
                      hrep1, hrep2, hrep3, hrep4]
                  · refine pred_traceStates_append
                      (pred_traceStates_append
                        (pred_traceStates_append hm1 ?_) ?_) ?_
                    · rw [hrep1]
                      exact hm2
                    · rw [replayF_append, hrep1, hrep2]
                      exact hm3
                    · rw [replayF_append, replayF_append, hrep1, hrep2, hrep3]
                      exact hm4
/-! ## The addition phase: states only ever grow the accept set by the
requested addresses, and a successful `add_ip` really installs its address -/

theorem ipt_ok_rc {f : Nat → Bool} {st : ShellSt} {args : List String}
    {t : List Ev} {st' : ShellSt} {p : Proc}
    (h : ipt false f st args true = (t, st', Except.ok p)) :
    (iptExecF f st.k st.fw ("iptables" :: args)).1.returncode = 0 := by
  have h2 : (ipt false f st args true).2.2 = Except.ok p := by rw [h]
  by_cases hrc : (iptExecF f st.k st.fw ("iptables" :: args)).1.returncode = 0
  · exact hrc
  · exfalso
    have h3 : (if ((iptExecF f st.k st.fw ("iptables" :: args)).1.returncode != 0)
          = true
        then (Except.error () : Except Unit Proc)
        else Except.ok (iptExecF f st.k st.fw ("iptables" :: args)).1)
        = Except.ok p := h2
    rw [if_pos (by simpa using hrc)] at h3
    cases h3

theorem add_ip_states (f : Nat → Bool) (st : ShellSt) (chain ip : String) :
    replayF f st (add_ip false f st chain ip).1 = (add_ip false f st chain ip).2.1 ∧
    (∀ S ∈ traceStates f st (add_ip false f st chain ip).1,
      (∀ x ∈ accepts st.fw, x ∈ accepts S) ∧
      ∀ x ∈ accepts S, x ∈ accepts st.fw ∨ x = ip) ∧
    (∀ x ∈ accepts st.fw, x ∈ accepts (add_ip false f st chain ip).2.1.fw) ∧
    (∀ x ∈ accepts (add_ip false f st chain ip).2.1.fw,
      x ∈ accepts st.fw ∨ x = ip) ∧
    ((add_ip false f st chain ip).2.2 = .ok () →
      ip ∈ accepts (add_ip false f st chain ip).2.1.fw) := by
  unfold add_ip
  rcases h1 : ipt_exists false f st ["-C", chain, "-s", ip, "-j", "ACCEPT"]
      with ⟨t1, st1, ex⟩
  obtain ⟨hrep1, hfw1, hmemS1, hrc1⟩ := ipt_exists_eq_parts h1
  obtain ⟨hCst, hCrc⟩ := iptExecF_Caccept f st.k st.fw chain ip
  rw [hCst] at hfw1 hmemS1
  dsimp only
  cases ex with
  | true =>
      rw [if_pos rfl]
      refine ⟨hrep1, ?_, ?_, ?_, ?_⟩
      · intro S hS
        rcases hmemS1 S hS with h | h <;>
          · rw [h]
            exact ⟨fun x hx => hx, fun x hx => Or.inl hx⟩
      · rw [hfw1]
        exact fun x hx => hx
      · rw [hfw1]
        exact fun x hx => Or.inl hx
      · intro _
        rw [hfw1]
        exact mem_acceptsOf_of_rule (hCrc (hrc1 rfl))
  | false =>
      rw [if_neg (by simp)]
      rcases h2 : ipt false f st1 ["-I", chain, "1", "-s", ip, "-j", "ACCEPT"] true
          with ⟨t2, st2, r2⟩
      obtain ⟨hrep2, hfw2, hmemS2⟩ := ipt_eq_parts h2
      obtain ⟨hIlo, hIup, hIrc⟩ := iptExecF_Iaccept f st1.k st1.fw chain ip
      rw [hfw1] at hIlo hIup hIrc hmemS2 hfw2
      have hmem12 : ∀ S ∈ traceStates f st (t1 ++ t2),
          (∀ x ∈ accepts st.fw, x ∈ accepts S) ∧
          ∀ x ∈ accepts S, x ∈ accepts st.fw ∨ x = ip := by
        refine pred_traceStates_append ?_ ?_
        · intro S hS
          rcases hmemS1 S hS with h | h <;>
            · rw [h]
              exact ⟨fun x hx => hx, fun x hx => Or.inl hx⟩
        · rw [hrep1]
          intro S hS
          rcases hmemS2 S hS with h | h
          · rw [h]
            exact ⟨fun x hx => hx, fun x hx => Or.inl hx⟩
          · rw [h]
            exact ⟨hIlo, hIup⟩
      have hfin_lo : ∀ x ∈ accepts st.fw, x ∈ accepts st2.fw := by
        rw [hfw2]
        exact hIlo
      have hfin_up : ∀ x ∈ accepts st2.fw, x ∈ accepts st.fw ∨ x = ip := by
        rw [hfw2]
        exact hIup
      cases r2 with
      | ok a =>
          dsimp only
          refine ⟨?_, hmem12, hfin_lo, hfin_up, ?_⟩
          · rw [replayF_append, hrep1, hrep2]
          · intro _
            have hrc := ipt_ok_rc h2
            rw [hfw1] at hrc
            rw [hfw2]
            exact hIrc hrc
      | error a =>
          dsimp only
          refine ⟨?_, hmem12, hfin_lo, hfin_up, ?_⟩
          · rw [replayF_append, hrep1, hrep2]
          · intro hok
            nomatch hok

theorem addLoop_states (f : Nat → Bool) (chain : String) :
    ∀ (ips : List String) (st : ShellSt),
      replayF f st (addLoop false f st chain ips).1 =
        (addLoop false f st chain ips).2.1 ∧
      (∀ S ∈ traceStates f st (addLoop false f st chain ips).1,
        (∀ x ∈ accepts st.fw, x ∈ accepts S) ∧
        ∀ x ∈ accepts S, x ∈ accepts st.fw ∨ x ∈ ips) ∧
      (∀ x ∈ accepts st.fw, x ∈ accepts (addLoop false f st chain ips).2.1.fw) ∧
      (∀ x ∈ accepts (addLoop false f st chain ips).2.1.fw,
        x ∈ accepts st.fw ∨ x ∈ ips) ∧
      ((addLoop false f st chain ips).2.2 = .ok () →
        ∀ x ∈ ips, x ∈ accepts (addLoop false f st chain ips).2.1.fw) := by
  intro ips
  induction ips with
  | nil =>
      intro st
      refine ⟨rfl, ?_, fun x hx => hx, fun x hx => Or.inl hx, ?_⟩
      · intro S hS
        have hS2 : S ∈ [st.fw] := hS
        rcases List.mem_singleton.mp hS2 with rfl
        exact ⟨fun x hx => hx, fun x hx => Or.inl hx⟩
      · intro _ x hx
        cases hx
  | cons ip rest ih =>
      intro st
      unfold addLoop
      rcases h1 : add_ip false f st chain ip with ⟨t, st', r⟩
      try rw [h1]
      have A := add_ip_states f st chain ip
      rw [h1] at A
      dsimp only at A
      obtain ⟨hrepA, hmemA, hloA, hupA, hokA⟩ := A
      cases r with
      | error a =>
          dsimp only
          refine ⟨hrepA, ?_, hloA, ?_, ?_⟩
          · intro S hS
            refine ⟨(hmemA S hS).1, fun x hx => ?_⟩
            rcases (hmemA S hS).2 x hx with h | h
            · exact Or.inl h
            · rw [h]
              exact Or.inr (List.mem_cons_self _ _)
          · intro x hx
            rcases hupA x hx with h | h
            · exact Or.inl h
            · rw [h]
              exact Or.inr (List.mem_cons_self _ _)
          · intro hok
            nomatch hok
      | ok a =>
          cases a
          rcases h2 : addLoop false f st' chain rest with ⟨t2, st2, r2⟩
          have IH := ih st'
          rw [h2] at IH
          dsimp only at IH
          obtain ⟨hrepI, hmemI, hloI, hupI, hokI⟩ := IH
          dsimp only
          rw [h2]
          dsimp only
          refine ⟨?_, ?_, ?_, ?_, ?_⟩
          · rw [replayF_append, hrepA, hrepI]
          · refine pred_traceStates_append ?_ ?_
            · intro S hS
              refine ⟨(hmemA S hS).1, fun x hx => ?_⟩
              rcases (hmemA S hS).2 x hx with h | h
              · exact Or.inl h
              · rw [h]
                exact Or.inr (List.mem_cons_self _ _)
            · rw [hrepA]
              intro S hS
              refine ⟨fun x hx => (hmemI S hS).1 x (hloA x hx), fun x hx => ?_⟩
              rcases (hmemI S hS).2 x hx with h | h
              · rcases hupA x h with h2 | h2
                · exact Or.inl h2
                · rw [h2]
                  exact Or.inr (List.mem_cons_self _ _)
              · exact Or.inr (List.mem_cons_of_mem _ h)
          · intro x hx
            exact hloI x (hloA x hx)
          · intro x hx
            rcases hupI x hx with h | h
            · rcases hupA x h with h2 | h2
              · exact Or.inl h2
              · rw [h2]
                exact Or.inr (List.mem_cons_self _ _)
            · exact Or.inr (List.mem_cons_of_mem _ h)
          · intro hok x hx
            rcases List.mem_cons.mp hx with h | h
            · rw [h]
              exact hloI ip (hokA rfl)
            · exact hokI hok x h

/-! ## The removal phase: states only ever shrink the accept set, and only
by the requested addresses -/

theorem remove_ip_states (f : Nat → Bool) (st : ShellSt) (chain ip : String) :
    replayF f st (remove_ip false f st chain ip).1 =
      (remove_ip false f st chain ip).2 ∧
    (∀ S ∈ traceStates f st (remove_ip false f st chain ip).1,
      (∀ x ∈ accepts S, x ∈ accepts st.fw) ∧
      ∀ x ∈ accepts st.fw, x ≠ ip → x ∈ accepts S) ∧
    (∀ x ∈ accepts (remove_ip false f st chain ip).2.fw, x ∈ accepts st.fw) ∧
    (∀ x ∈ accepts st.fw, x ≠ ip →
      x ∈ accepts (remove_ip false f st chain ip).2.fw) := by
  unfold remove_ip
  rcases h1 : ipt false f st ["-D", chain, "-s", ip, "-j", "ACCEPT"] false
      with ⟨t, st', r⟩
  obtain ⟨hrep, hfw, hmemS⟩ := ipt_eq_parts h1
  obtain ⟨hDup, hDlo⟩ := iptExecF_Daccept f st.k st.fw chain ip
  dsimp only
  refine ⟨hrep, ?_, ?_, ?_⟩
  · intro S hS
    rcases hmemS S hS with h | h
    · rw [h]
      exact ⟨fun x hx => hx, fun x hx _ => hx⟩
    · rw [h]
      exact ⟨hDup, hDlo⟩
  · rw [hfw]
    exact hDup
  · rw [hfw]
    exact hDlo

theorem removeLoop_states (f : Nat → Bool) (chain : String) :
    ∀ (ips : List String) (st : ShellSt),
      replayF f st (removeLoop false f st chain ips).1 =
        (removeLoop false f st chain ips).2 ∧
      (∀ S ∈ traceStates f st (removeLoop false f st chain ips).1,
        (∀ x ∈ accepts S, x ∈ accepts st.fw) ∧
        ∀ x ∈ accepts st.fw, x ∉ ips → x ∈ accepts S) ∧
      (∀ x ∈ accepts (removeLoop false f st chain ips).2.fw, x ∈ accepts st.fw) ∧
      (∀ x ∈ accepts st.fw, x ∉ ips →
        x ∈ accepts (removeLoop false f st chain ips).2.fw) := by
  intro ips
  induction ips with
  | nil =>
      intro st
      refine ⟨rfl, ?_, fun x hx => hx, fun x hx _ => hx⟩
      intro S hS
      have hS2 : S ∈ [st.fw] := hS
      rcases List.mem_singleton.mp hS2 with rfl
      exact ⟨fun x hx => hx, fun x hx _ => hx⟩
  | cons ip rest ih =>
      intro st
      unfold removeLoop
      rcases h1 : remove_ip false f st chain ip with ⟨t, st'⟩
      try rw [h1]
      have A := remove_ip_states f st chain ip
      rw [h1] at A
      dsimp only at A
      obtain ⟨hrepA, hmemA, hupA, hloA⟩ := A
      rcases h2 : removeLoop false f st' chain rest with ⟨t2, st2⟩
      have IH := ih st'
      rw [h2] at IH
      dsimp only at IH
      obtain ⟨hrepI, hmemI, hupI, hloI⟩ := IH
      dsimp only
      rw [h2]
      dsimp only
      have hne_of : ∀ x : String, x ∉ ip :: rest → x ≠ ip ∧ x ∉ rest := by
        intro x hx
        constructor
        · intro he
          exact hx (by rw [he]; exact List.mem_cons_self _ _)
        · intro hm
          exact hx (List.mem_cons_of_mem _ hm)
      refine ⟨?_, ?_, ?_, ?_⟩
      · rw [replayF_append, hrepA, hrepI]
      · refine pred_traceStates_append ?_ ?_
        · intro S hS
          refine ⟨(hmemA S hS).1, fun x hx hnx => ?_⟩
          exact (hmemA S hS).2 x hx (hne_of x hnx).1
        · rw [hrepA]
          intro S hS
          refine ⟨fun x hx => hupA x ((hmemI S hS).1 x hx), fun x hx hnx => ?_⟩
          exact (hmemI S hS).2 x (hloA x hx (hne_of x hnx).1) (hne_of x hnx).2
      · intro x hx
        exact hupA x (hupI x hx)
      · intro x hx hnx
        exact hloI x (hloA x hx (hne_of x hnx).1) (hne_of x hnx).2
/-! ## The drop-maintenance phase never changes the accept set -/

theorem stripDeleteLoop_states (f : Nat → Bool) (chain : String) :
    ∀ (lines : List String) (st : ShellSt),
      replayF f st (stripDeleteLoop false f st chain lines).1 =
        (stripDeleteLoop false f st chain lines).2.1 ∧
      (∀ S ∈ traceStates f st (stripDeleteLoop false f st chain lines).1,
        ∀ x, x ∈ accepts S ↔ x ∈ accepts st.fw) ∧
      (∀ x, x ∈ accepts (stripDeleteLoop false f st chain lines).2.1.fw ↔
        x ∈ accepts st.fw) := by
  intro lines
  induction lines with
  | nil =>
      intro st
      refine ⟨rfl, ?_, fun x => Iff.rfl⟩
      intro S hS
      have hS2 : S ∈ [st.fw] := hS
      rcases List.mem_singleton.mp hS2 with rfl
      exact fun x => Iff.rfl
  | cons line rest ih =>
      intro st
      unfold stripDeleteLoop
      by_cases hguard : (pyStartsWith line ("-A " ++ chain ++ " ")
          && hasAdjJDrop (pyWords line)) = true
      · rw [if_pos hguard]
        obtain ⟨hstart, hdrop⟩ := Bool.and_eq_true_iff.mp hguard
        obtain ⟨ws, hws⟩ := pyWords_startA hstart
        rcases h1 : ipt false f st ("-D" :: chain :: (pyWords line).drop 2) true
            with ⟨t, st', r⟩
        try rw [h1]
        obtain ⟨hrepA, hfwA, hmemSA⟩ := ipt_eq_parts h1
        have hpres : ∀ x, x ∈ accepts (iptExecF f st.k st.fw
            ("iptables" :: "-D" :: chain :: (pyWords line).drop 2)).2 ↔
            x ∈ accepts st.fw := by
          rw [hws] at hdrop
          cases ws with
          | nil => simp [hasAdjJDrop] at hdrop
          | cons w1 parts =>
              rw [show (pyWords line).drop 2 = parts from by rw [hws]; rfl]
              exact iptExecF_strip_delete f st.k st.fw chain w1 parts hdrop
        cases r with
        | error a =>
            dsimp only
            refine ⟨hrepA, ?_, ?_⟩
            · intro S hS
              rcases hmemSA S hS with h | h
              · rw [h]
                exact fun x => Iff.rfl
              · rw [h]
                exact hpres
            · intro x
              rw [hfwA]
              exact hpres x
        | ok a =>
            rcases h2 : stripDeleteLoop false f st' chain rest with ⟨t2, st2, r2⟩
            have IH := ih st'
            rw [h2] at IH
            dsimp only at IH
            obtain ⟨hrepI, hmemI, hfinI⟩ := IH
            dsimp only
            try rw [h2]
            dsimp only
            refine ⟨?_, ?_, ?_⟩
            · rw [replayF_append, hrepA, hrepI]
            · refine pred_traceStates_append ?_ ?_
              · intro S hS
                rcases hmemSA S hS with h | h
                · rw [h]
                  exact fun x => Iff.rfl
                · rw [h]
                  exact hpres
              · rw [hrepA]
                intro S hS x
                rw [hmemI S hS x, hfwA]
                exact hpres x
            · intro x
              rw [hfinI x, hfwA]
              exact hpres x
      · rw [if_neg hguard]
        exact ih st

theorem strip_states (f : Nat → Bool) (st : ShellSt) (chain : String) :
    replayF f st (strip_trailing_drops false f st chain).1 =
      (strip_trailing_drops false f st chain).2.1 ∧
    (∀ S ∈ traceStates f st (strip_trailing_drops false f st chain).1,
      ∀ x, x ∈ accepts S ↔ x ∈ accepts st.fw) ∧
    (∀ x, x ∈ accepts (strip_trailing_drops false f st chain).2.1.fw ↔
      x ∈ accepts st.fw) := by
  unfold strip_trailing_drops
  rcases h1 : ipt false f st ["-S", chain] true with ⟨t1, st1, r1⟩
  try rw [h1]
  obtain ⟨hrep1, hfw1, hmemS1⟩ := ipt_eq_parts h1
  rw [iptExecF_S] at hfw1 hmemS1
  cases r1 with
  | error a =>
      dsimp only
      refine ⟨hrep1, ?_, ?_⟩
      · intro S hS
        rcases hmemS1 S hS with h | h <;>
          · rw [h]
            exact fun x => Iff.rfl
      · intro x
        rw [hfw1]
  | ok p =>
      rcases h2 : stripDeleteLoop false f st1 chain (pySplit p.stdout "\n")
          with ⟨t2, st2, r2⟩
      have SD := stripDeleteLoop_states f chain (pySplit p.stdout "\n") st1
      rw [h2] at SD
      dsimp only at SD
      obtain ⟨hrep2, hmem2, hfin2⟩ := SD
      dsimp only
      try rw [h2]
      dsimp only
      refine ⟨?_, ?_, ?_⟩
      · rw [replayF_append, hrep1, hrep2]
      · refine pred_traceStates_append ?_ ?_
        · intro S hS
          rcases hmemS1 S hS with h | h <;>
            · rw [h]
              exact fun x => Iff.rfl
        · rw [hrep1]
          intro S hS x
          rw [hmem2 S hS x, hfw1]
      · intro x
        rw [hfin2 x, hfw1]

theorem ensure_final_drop_states (f : Nat → Bool) (st : ShellSt)
    (chain : String) :
    replayF f st (ensure_final_drop false f st chain).1 =
      (ensure_final_drop false f st chain).2.1 ∧
    (∀ S ∈ traceStates f st (ensure_final_drop false f st chain).1,
      ∀ x, x ∈ accepts S ↔ x ∈ accepts st.fw) ∧
    (∀ x, x ∈ accepts (ensure_final_drop false f st chain).2.1.fw ↔
      x ∈ accepts st.fw) := by
  unfold ensure_final_drop
  rcases h1 : strip_trailing_drops false f st chain with ⟨t1, st1, r1⟩
  try rw [h1]
  have ST := strip_states f st chain
  rw [h1] at ST
  dsimp only at ST
  obtain ⟨hrep1, hmem1, hfin1⟩ := ST
  cases r1 with
  | error a =>
      dsimp only
      exact ⟨hrep1, hmem1, hfin1⟩
  | ok a =>
      dsimp only
      rcases h2 : ipt false f st1 ["-A", chain, "-j", "DROP"] true
          with ⟨t2, st2, r2⟩
      try rw [h2]
      obtain ⟨hrep2, hfw2, hmemS2⟩ := ipt_eq_parts h2
      have hAD := iptExecF_Adrop f st1.k st1.fw chain
      cases r2 with
      | ok b =>
          dsimp only
          refine ⟨?_, ?_, ?_⟩
          · rw [replayF_append, hrep1, hrep2]
          · refine pred_traceStates_append hmem1 ?_
            rw [hrep1]
            intro S hS x
            rcases hmemS2 S hS with h | h
            · rw [h]
              exact hfin1 x
            · rw [h, hAD x]
              exact hfin1 x
          · intro x
            rw [hfw2, hAD x]
            exact hfin1 x
      | error b =>
          dsimp only
          refine ⟨?_, ?_, ?_⟩
          · rw [replayF_append, hrep1, hrep2]
          · refine pred_traceStates_append hmem1 ?_
            rw [hrep1]
            intro S hS x
            rcases hmemS2 S hS with h | h
            · rw [h]
              exact hfin1 x
            · rw [h, hAD x]
              exact hfin1 x
          · intro x
            rw [hfw2, hAD x]
            exact hfin1 x
/-! ## Filter splitting for the add-before-remove ordering -/

theorem filter_or_of_qfree (p q : Ev → Bool) (l : List Ev)
    (h : ∀ e ∈ l, q e = false) :
    l.filter (fun e => p e || q e) = l.filter p ++ l.filter q := by
  have e1 : l.filter (fun e => p e || q e) = l.filter p :=
    List.filter_congr (fun e he => by rw [h e he, Bool.or_false])
  have e2 : l.filter q = [] := by
    rw [List.filter_eq_nil_iff]
    intro e he
    simp [h e he]
  rw [e1, e2, List.append_nil]

theorem filter_or_split (p q : Ev → Bool) (l₁ l₂ : List Ev)
    (h₁ : ∀ e ∈ l₁, q e = false) (h₂ : ∀ e ∈ l₂, p e = false) :
    (l₁ ++ l₂).filter (fun e => p e || q e) =
      (l₁ ++ l₂).filter p ++ (l₁ ++ l₂).filter q := by
  rw [List.filter_append, List.filter_append, List.filter_append]
  have e1 : l₁.filter (fun e => p e || q e) = l₁.filter p :=
    List.filter_congr (fun e he => by rw [h₁ e he, Bool.or_false])
  have e2 : l₂.filter (fun e => p e || q e) = l₂.filter q :=
    List.filter_congr (fun e he => by rw [h₂ e he, Bool.false_or])
  have e3 : l₂.filter p = [] := by
    rw [List.filter_eq_nil_iff]
    intro e he
    simp [h₂ e he]
  have e4 : l₁.filter q = [] := by
    rw [List.filter_eq_nil_iff]
    intro e he
    simp [h₁ e he]
  rw [e1, e2, e3, e4, List.append_nil, List.nil_append]

theorem accepts_eq_of_rules_eq {S T : FwState} (h : S.rules = T.rules) :
    accepts S = accepts T := congrArg acceptsOf h

/-- **C2 (amended).** When both the additions and the removals of the diff
are nonempty, `FirewallManager.sync` issues every ACCEPT-rule insertion
before every ACCEPT-rule removal (the filtered event trace splits into the
additions followed by the removals), and every intermediate firewall state
of the run keeps the allowed set a superset of the intersection of the old
and the desired sets and never a strict subset of the old allowed set;
the old set stays fully allowed up to the end of the addition phase, and
from then on the full desired set is allowed.  This holds for every fault
oracle, i.e. also on runs a backend failure cuts short. -/
theorem C2_amended_adds_before_removes
    (f : Nat → Bool) (fw0 : FwState) (chain : String) (port : Nat)
    (wantedIps prevIps : List String)
    (hacc : ∀ x, x ∈ accepts fw0 ↔ x ∈ prevIps)
    (hadd : (syncDiff wantedIps prevIps).1 ≠ [])
    (hrem : (syncDiff wantedIps prevIps).2 ≠ []) :
    ((syncRun false f ⟨fw0, 0⟩ chain port wantedIps prevIps).1.filter
        (fun e => isAddEv chain e || isRemEv chain e) =
      (syncRun false f ⟨fw0, 0⟩ chain port wantedIps prevIps).1.filter
        (fun e => isAddEv chain e) ++
      (syncRun false f ⟨fw0, 0⟩ chain port wantedIps prevIps).1.filter
        (fun e => isRemEv chain e)) ∧
    ∀ S ∈ traceStates f ⟨fw0, 0⟩
        (syncRun false f ⟨fw0, 0⟩ chain port wantedIps prevIps).1,
      ((∀ x ∈ accepts fw0, x ∈ accepts S) ∨
        (∀ x ∈ wantedIps, x ∈ accepts S)) ∧
      (∀ x, x ∈ prevIps → x ∈ wantedIps → x ∈ accepts S) ∧
      ((∀ x ∈ accepts S, x ∈ accepts fw0) →
        ∀ x ∈ accepts fw0, x ∈ accepts S) := by
  have hPad : ∀ S : FwState, (∀ x ∈ accepts fw0, x ∈ accepts S) →
      ((∀ x ∈ accepts fw0, x ∈ accepts S) ∨
        (∀ x ∈ wantedIps, x ∈ accepts S)) ∧
      (∀ x, x ∈ prevIps → x ∈ wantedIps → x ∈ accepts S) ∧
      ((∀ x ∈ accepts S, x ∈ accepts fw0) →
        ∀ x ∈ accepts fw0, x ∈ accepts S) := by
    intro S hsup
    exact ⟨Or.inl hsup, fun x hp _ => hsup x ((hacc x).mpr hp), fun _ => hsup⟩
  have hPrem : ∀ S : FwState, (∀ x ∈ wantedIps, x ∈ accepts S) →
      ((∀ x ∈ accepts fw0, x ∈ accepts S) ∨
        (∀ x ∈ wantedIps, x ∈ accepts S)) ∧
      (∀ x, x ∈ prevIps → x ∈ wantedIps → x ∈ accepts S) ∧
      ((∀ x ∈ accepts S, x ∈ accepts fw0) →
        ∀ x ∈ accepts fw0, x ∈ accepts S) := by
    intro S hsup
    obtain ⟨a, ha⟩ := List.exists_mem_of_ne_nil _ hadd
    obtain ⟨haw, hap⟩ := mem_syncDiff_add.mp ha
    refine ⟨Or.inr hsup, fun x _ hw => hsup x hw, ?_⟩
    intro hsub
    exact absurd ((hacc a).mp (hsub a (hsup a haw))) hap
  have hNev : ∀ e ∈ ([Ev.note "Adding", Ev.note "Removing"] : List Ev),
      isAddEv chain e = false ∧ isRemEv chain e = false := by
    intro e he
    have h2 : e = Ev.note "Adding" ∨ e = Ev.note "Removing" := by simpa using he
    rcases h2 with rfl | rfl <;> exact ⟨rfl, rfl⟩
  have hmemN : ∀ S ∈ traceStates f (⟨fw0, 0⟩ : ShellSt)
      [Ev.note "Adding", Ev.note "Removing"], ∀ x ∈ accepts fw0, x ∈ accepts S := by
    intro S hS
    have hS2 : S ∈ [fw0, fw0, fw0] := hS
    have h3 : S = fw0 ∨ S = fw0 ∨ S = fw0 := by simpa using hS2
    rcases h3 with rfl | rfl | rfl <;> exact fun x hx => hx
  have haddE : ((syncDiff wantedIps prevIps).1).isEmpty = false := by
    cases h : (syncDiff wantedIps prevIps).1 with
    | nil => exact absurd h hadd
    | cons a l => rfl
  have hremE : ((syncDiff wantedIps prevIps).2).isEmpty = false := by
    cases h : (syncDiff wantedIps prevIps).2 with
    | nil => exact absurd h hrem
    | cons a l => rfl
  have hN : (if ((syncDiff wantedIps prevIps).1).isEmpty then ([] : List Ev)
        else [Ev.note "Adding"]) ++
      (if ((syncDiff wantedIps prevIps).2).isEmpty then ([] : List Ev)
        else [Ev.note "Removing"]) =
      [Ev.note "Adding", Ev.note "Removing"] := by
    rw [haddE, hremE]
    rfl
  unfold syncRun
  dsimp only
  rw [hN]
  rcases h1 : ensure_chain_and_jump false f ⟨fw0, 0⟩ chain port with ⟨t1, st1, r1⟩
  try rw [h1]
  have E := ensure_states f ⟨fw0, 0⟩ chain port
  rw [h1] at E
  dsimp only at E
  obtain ⟨hrep1, hfwr1, hmem1⟩ := E
  have hacc1 : accepts st1.fw = accepts fw0 := accepts_eq_of_rules_eq hfwr1
  have h1ev : ∀ e ∈ t1, isAddEv chain e = false ∧ isRemEv chain e = false := by
    have ht : t1 = (ensure_chain_and_jump false f ⟨fw0, 0⟩ chain port).1 := by
      rw [h1]
    rw [ht]
    intro e he
    have hP := ensure_events false f ⟨fw0, 0⟩ chain port e he
    unfold phaseEvOk at hP
    exact ⟨hP.2.2.1 rfl, hP.2.2.2 rfl⟩
  cases r1 with
  | error a =>
      dsimp only
      constructor
      · refine filter_or_of_qfree _ _ _ ?_
        intro e he
        rcases List.mem_append.mp he with h | h
        · exact (hNev e h).2
        · exact (h1ev e h).2
      · refine pred_traceStates_append (fun S hS => hPad S (hmemN S hS)) ?_
        rw [show replayF f (⟨fw0, 0⟩ : ShellSt)
            [Ev.note "Adding", Ev.note "Removing"] = ⟨fw0, 0⟩ from rfl]
        intro S hS
        refine hPad S (fun x hx => ?_)
        rw [accepts_eq_of_rules_eq (hmem1 S hS)]
        exact hx
  | ok a =>
      dsimp only
      rcases h2 : addLoop false f st1 chain (syncDiff wantedIps prevIps).1
          with ⟨t2, st2, r2⟩
      try rw [h2]
      have AL := addLoop_states f chain (syncDiff wantedIps prevIps).1 st1
      rw [h2] at AL
      dsimp only at AL
      obtain ⟨hrep2, hmem2, hlo2, hup2, hok2⟩ := AL
      have h2ev : ∀ e ∈ t2, isRemEv chain e = false := by
        have ht : t2 = (addLoop false f st1 chain
            (syncDiff wantedIps prevIps).1).1 := by
          rw [h2]
        rw [ht]
        intro e he
        have hP := addLoop_events false f chain (syncDiff wantedIps prevIps).1
          st1 e he
        unfold phaseEvOk at hP
        exact hP.2.2.2 rfl
      cases r2 with
      | error a2 =>
          dsimp only
          constructor
          · refine filter_or_of_qfree _ _ _ ?_
            intro e he
            rcases List.mem_append.mp he with h | h
            · rcases List.mem_append.mp h with h | h
              · exact (hNev e h).2
              · exact (h1ev e h).2
            · exact h2ev e h
          · refine pred_traceStates_append (pred_traceStates_append
              (fun S hS => hPad S (hmemN S hS)) ?_) ?_
            · rw [show replayF f (⟨fw0, 0⟩ : ShellSt)
                  [Ev.note "Adding", Ev.note "Removing"] = ⟨fw0, 0⟩ from rfl]
              intro S hS
              refine hPad S (fun x hx => ?_)
              rw [accepts_eq_of_rules_eq (hmem1 S hS)]
              exact hx
            · rw [replayF_append,
                show replayF f (⟨fw0, 0⟩ : ShellSt)
                  [Ev.note "Adding", Ev.note "Removing"] = ⟨fw0, 0⟩ from rfl,
                hrep1]
              intro S hS
              refine hPad S (fun x hx => ?_)
              exact (hmem2 S hS).1 x (by rw [hacc1]; exact hx)
      | ok a2 =>
          cases a2
          dsimp only
          rcases h3 : removeLoop false f st2 chain (syncDiff wantedIps prevIps).2
              with ⟨t3, st3⟩
          try rw [h3]
          have RL := removeLoop_states f chain (syncDiff wantedIps prevIps).2 st2
          rw [h3] at RL
          dsimp only at RL
          obtain ⟨hrep3, hmem3, hup3, hlo3⟩ := RL
          have h3ev : ∀ e ∈ t3, isAddEv chain e = false := by
            have ht : t3 = (removeLoop false f st2 chain
                (syncDiff wantedIps prevIps).2).1 := by
              rw [h3]
            rw [ht]
            intro e he
            have hP := removeLoop_events false f chain
              (syncDiff wantedIps prevIps).2 st2 e he
            unfold phaseEvOk at hP
            exact hP.2.2.1 rfl
          have hwanted2 : ∀ x ∈ wantedIps, x ∈ accepts st2.fw := by
            intro x hw
            by_cases hp : x ∈ prevIps
            · exact hlo2 x (by rw [hacc1]; exact (hacc x).mpr hp)
            · exact hok2 rfl x (mem_syncDiff_add.mpr ⟨hw, hp⟩)
          have hwanted3 : ∀ x ∈ wantedIps, x ∈ accepts st3.fw := by
            intro x hw
            exact hlo3 x (hwanted2 x hw)
              (fun hxr => (mem_syncDiff_remove.mp hxr).2 hw)
          dsimp only
          rcases h4 : ensure_final_drop false f st3 chain with ⟨t4, st4, r4⟩
          try rw [h4]
          have FD := ensure_final_drop_states f st3 chain
          rw [h4] at FD
          dsimp only at FD
          obtain ⟨hrep4, hmem4, hfin4⟩ := FD
          have h4ev : ∀ e ∈ t4, isAddEv chain e = false ∧
              isRemEv chain e = false := by
            have ht : t4 = (ensure_final_drop false f st3 chain).1 := by
              rw [h4]
            rw [ht]
            intro e he
            have hP := ensure_final_drop_events false f st3 chain e he
            unfold phaseEvOk at hP
            exact ⟨hP.2.2.1 rfl, hP.2.2.2 rfl⟩
          dsimp only
          constructor
          · rw [List.append_assoc
              ((([Ev.note "Adding", Ev.note "Removing"] ++ t1) ++ t2)) t3 t4]
            refine filter_or_split _ _ _ _ ?_ ?_
            · intro e he
              rcases List.mem_append.mp he with h | h
              · rcases List.mem_append.mp h with h | h
                · exact (hNev e h).2
                · exact (h1ev e h).2
              · exact h2ev e h
            · intro e he
              rcases List.mem_append.mp he with h | h
              · exact h3ev e h
              · exact (h4ev e h).1
          · refine pred_traceStates_append (pred_traceStates_append
              (pred_traceStates_append (pred_traceStates_append
                (fun S hS => hPad S (hmemN S hS)) ?_) ?_) ?_) ?_
            · rw [show replayF f (⟨fw0, 0⟩ : ShellSt)
                  [Ev.note "Adding", Ev.note "Removing"] = ⟨fw0, 0⟩ from rfl]
              intro S hS
              refine hPad S (fun x hx => ?_)
              rw [accepts_eq_of_rules_eq (hmem1 S hS)]
              exact hx
            · rw [replayF_append,
                show replayF f (⟨fw0, 0⟩ : ShellSt)
                  [Ev.note "Adding", Ev.note "Removing"] = ⟨fw0, 0⟩ from rfl,
                hrep1]
              intro S hS
              refine hPad S (fun x hx => ?_)
              exact (hmem2 S hS).1 x (by rw [hacc1]; exact hx)
            · rw [replayF_append, replayF_append,
                show replayF f (⟨fw0, 0⟩ : ShellSt)
                  [Ev.note "Adding", Ev.note "Removing"] = ⟨fw0, 0⟩ from rfl,
                hrep1, hrep2]
              intro S hS
              refine hPrem S (fun x hw => ?_)
              exact (hmem3 S hS).2 x (hwanted2 x hw)
                (fun hxr => (mem_syncDiff_remove.mp hxr).2 hw)
            · rw [replayF_append, replayF_append, replayF_append,
                show replayF f (⟨fw0, 0⟩ : ShellSt)
                  [Ev.note "Adding", Ev.note "Removing"] = ⟨fw0, 0⟩ from rfl,
                hrep1, hrep2, hrep3]
              intro S hS
              refine hPrem S (fun x hw => ?_)
              exact (hmem4 S hS x).mpr (hwanted3 x hw)
/-- **C2, counterexample.**  The claim also asserts that the allowed set at
every intermediate point of the apply phase is a superset of the old
allowed set.  On a healthy backend with old state `{9.9.9.9}` and desired
state `{1.2.3.4}` — both `toAdd` and `toRemove` nonempty — the run passes
through the state whose rules are `[ACCEPT 1.2.3.4, DROP]`: the moment the
stale allow is deleted the old address `9.9.9.9` is no longer allowed, so
that intermediate state is not a superset of the old allowed set. -/
theorem C2_counterexample :
    (syncDiff ["1.2.3.4"] ["9.9.9.9"]).1 ≠ [] ∧
    (syncDiff ["1.2.3.4"] ["9.9.9.9"]).2 ≠ [] ∧
    "9.9.9.9" ∈ accepts fwExample ∧
    ∃ S ∈ traceStates (fun _ => false) ⟨fwExample, 0⟩
        (syncRun false (fun _ => false) ⟨fwExample, 0⟩ "BOP_HTTPS" 443
          ["1.2.3.4"] ["9.9.9.9"]).1,
      "9.9.9.9" ∉ accepts S := by
  refine ⟨by decide, by decide, by decide, ?_⟩
  refine ⟨(⟨true, [Rule.accept "1.2.3.4", Rule.drop], true⟩ : FwState),
    by decide, by decide⟩

/-- Witness for the amended C2: on the concrete run with old state
`{9.9.9.9}` and desired state `{1.2.3.4}` (one addition, one removal) the
filtered trace splits into the addition followed by the removal, and every
intermediate state satisfies the amended invariants. -/
theorem C2_amended_adds_before_removes_witness :
    (let tr := (syncRun false (fun _ => false) ⟨fwExample, 0⟩ "BOP_HTTPS" 443
        ["1.2.3.4"] ["9.9.9.9"]).1
     tr.filter (fun e => isAddEv "BOP_HTTPS" e || isRemEv "BOP_HTTPS" e) =
       tr.filter (fun e => isAddEv "BOP_HTTPS" e) ++
       tr.filter (fun e => isRemEv "BOP_HTTPS" e)) ∧
    ∀ S ∈ traceStates (fun _ => false) ⟨fwExample, 0⟩
        (syncRun false (fun _ => false) ⟨fwExample, 0⟩ "BOP_HTTPS" 443
          ["1.2.3.4"] ["9.9.9.9"]).1,
      ((∀ x ∈ accepts fwExample, x ∈ accepts S) ∨
        (∀ x ∈ (["1.2.3.4"] : List String), x ∈ accepts S)) ∧
      (∀ x, x ∈ (["9.9.9.9"] : List String) → x ∈ (["1.2.3.4"] : List String) →
        x ∈ accepts S) ∧
      ((∀ x ∈ accepts S, x ∈ accepts fwExample) →
        ∀ x ∈ accepts fwExample, x ∈ accepts S) :=
  C2_amended_adds_before_removes (fun _ => false) fwExample "BOP_HTTPS" 443
    ["1.2.3.4"] ["9.9.9.9"] (fun x => Iff.rfl) (by decide) (by decide)
end BOP
